import Mathlib

/-!
Verification development for the invoice extraction engine.

The Python sources are shallowly embedded: `decimal.Decimal` values are
modelled as exact rationals (`ℚ`); `Decimal.quantize(Decimal("0.01"))`
under the default context is modelled by `quantize2` (round half to even
at two decimal places).  Regular-expression searches are embedded as
explicit recursive matchers over `List Char` that reproduce the
backtracking semantics of the concrete patterns appearing in the source.
-/

namespace InvoiceProof

/-- ASCII decimal digit, the regex class backslash-d on ASCII text. -/
def isDig (c : Char) : Bool := '0' ≤ c && c ≤ '9'

/-- Python regex whitespace class on ASCII text: space, tab, newline,
carriage return, vertical tab, form feed. -/
def isSpc (c : Char) : Bool :=
  c = ' ' || c = '\t' || c = '\n' || c = '\r' || c = '\x0b' || c = '\x0c'

/-- ASCII letter. -/
def isAsciiAlpha (c : Char) : Bool := ('a' ≤ c && c ≤ 'z') || ('A' ≤ c && c ≤ 'Z')

/-- Regex word-character class (ASCII fragment): letter, digit or underscore. -/
def isWordChar (c : Char) : Bool := isAsciiAlpha c || isDig c || c = '_'

/-- ASCII lower-casing of one character, as Python str.lower on ASCII. -/
def lowerC (c : Char) : Char :=
  if 'A' ≤ c && c ≤ 'Z' then Char.ofNat (c.toNat + 32) else c

/-- ASCII upper-casing of one character, as Python str.upper on ASCII. -/
def upperC (c : Char) : Char :=
  if 'a' ≤ c && c ≤ 'z' then Char.ofNat (c.toNat - 32) else c

/-- Python str.strip with no argument (ASCII whitespace fragment). -/
def pyStrip (l : List Char) : List Char :=
  ((l.dropWhile (fun c => isSpc c)).reverse.dropWhile (fun c => isSpc c)).reverse

/-- Python str.lower (ASCII fragment). -/
def pyLower (l : List Char) : List Char := l.map lowerC

/-- Python str.upper (ASCII fragment). -/
def pyUpper (l : List Char) : List Char := l.map upperC

/-- Numeric value of a list of ASCII digits, most significant first. -/
def natOfDigits (l : List Char) : Nat :=
  l.foldl (fun acc c => 10 * acc + (c.toNat - '0'.toNat)) 0

/-- Python str.isdigit on ASCII text: nonempty and all digits. -/
def pyIsDigit (l : List Char) : Bool := !l.isEmpty && l.all isDig

/-- Does the pattern occur as a contiguous substring (Python `in`)? -/
def containsSub (hay pat : List Char) : Bool :=
  (List.range (hay.length + 1)).any (fun i => (hay.drop i).take pat.length = pat)

/-- Case-insensitive literal prefix match; returns the remainder on success. -/
def matchLitCI : List Char → List Char → Option (List Char)
  | [], l => some l
  | _ :: _, [] => none
  | p :: ps, c :: cs => if lowerC c = lowerC p then matchLitCI ps cs else none

/-- Case-sensitive literal prefix match; returns the remainder on success. -/
def matchLit : List Char → List Char → Option (List Char)
  | [], l => some l
  | _ :: _, [] => none
  | p :: ps, c :: cs => if c = p then matchLit ps cs else none

/-- Floor of a rational as an integer, written with explicit floor division
so that the kernel can evaluate it. -/
def ratFloorZ (q : ℚ) : ℤ := q.num.fdiv q.den

/-- Round a rational to an integer by the round-half-to-even rule used by
Python Decimal quantize under the default context. -/
def roundHalfEven (q : ℚ) : ℤ :=
  let f : ℤ := ratFloorZ q
  let r : ℚ := q - f
  if r < 1/2 then f
  else if 1/2 < r then f + 1
  else if f % 2 = 0 then f else f + 1

/-- Decimal quantize to two decimal places under the default context
(ROUND_HALF_EVEN), on the exact-rational model of Decimal. -/
def quantize2 (q : ℚ) : ℚ := (roundHalfEven (q * 100) : ℚ) / 100

/-- The financial-figures map built by
PdfPlumberParser.extract_financials_with_validation: keys subtotal,
discount, discount_percentage, shipping, tax, final_total, all Decimal,
all zero-initialised. -/
structure FinancialFigures where
  subtotal : ℚ
  discount : ℚ
  discount_percentage : ℚ
  shipping : ℚ
  tax : ℚ
  final_total : ℚ
deriving DecidableEq, Repr

/-- The cross-derivation (reconciliation) tail of
extract_financials_with_validation (pdfplumber_parser.py lines 157-203):
rule 1 derives the discount amount from an explicit percentage, rule 2
derives the percentage from an explicit amount, rule 3 infers a discount
from the gap between subtotal+shipping+tax and the parsed final total. -/
def reconcileFinancials (f : FinancialFigures) : FinancialFigures :=
  let f1 :=
    if f.discount = 0 ∧ 0 < f.discount_percentage ∧ 0 < f.subtotal then
      { f with discount := quantize2 (f.subtotal * f.discount_percentage / 100) }
    else f
  let f2 :=
    if f1.discount_percentage = 0 ∧ 0 < f1.discount ∧ 0 < f1.subtotal then
      { f1 with discount_percentage := quantize2 (f1.discount / f1.subtotal * 100) }
    else f1
  let cal := f2.subtotal + f2.shipping + f2.tax
  if 0 < f2.final_total ∧ f2.discount = 0 ∧ f2.final_total < cal then
    if 1/100 < cal - f2.final_total then
      let d := quantize2 (cal - f2.final_total)
      if 0 < f2.subtotal then
        { f2 with discount := d, discount_percentage := quantize2 (d / f2.subtotal * 100) }
      else { f2 with discount := d }
    else f2
  else f2

/-- Maximal prefix satisfying a predicate, together with the remainder. -/
def takeRun (p : Char → Bool) (l : List Char) : List Char × List Char :=
  (l.takeWhile p, l.dropWhile p)

/-- Skip a maximal run of regex whitespace. -/
def skipWs (l : List Char) : List Char := l.dropWhile (fun c => isSpc c)

/-- Consume one given character if it is next (an optional literal in a
regex; deterministic here because in every use site the following token
can never match that character). -/
def optChar (c : Char) (l : List Char) : List Char :=
  match l with
  | x :: r => if x = c then r else l
  | [] => l

/-- The money group of the financial label patterns: a maximal nonempty run
of digits and commas, a dot, then exactly two digits, as in the regex
piece that captures an amount with two decimals.  Returns the value in
cents (commas dropped, as the source drops them before Decimal) and the
remainder.  Backtracking note: shrinking the leading run only exposes a
digit or comma where the dot is required, so the maximal run is the only
candidate. -/
def amountGroup (l : List Char) : Option (Nat × List Char) :=
  let (run, r1) := takeRun (fun c => isDig c || c = ',') l
  if run.isEmpty then none
  else
    match r1 with
    | '.' :: d1 :: d2 :: rest =>
        if isDig d1 && isDig d2 then
          some (natOfDigits (run.filter isDig) * 100
                  + (10 * (d1.toNat - '0'.toNat) + (d2.toNat - '0'.toNat)), rest)
        else none
    | _ => none

/-- The tail shared by the labelled amount patterns: optional whitespace,
an optional dollar sign, optional whitespace, then the money group. -/
def moneyTail (l : List Char) : Option (Nat × List Char) :=
  amountGroup (skipWs (optChar '$' (skipWs l)))

/-- Leftmost-match search: try the matcher at every suffix, leftmost
first, exactly as a regex search scans start positions. -/
def scanFirst (tryAt : List Char → Option α) : List Char → Option α
  | [] => tryAt []
  | l@(_ :: rest) =>
      match tryAt l with
      | some v => some v
      | none => scanFirst tryAt rest

/-- One labelled-amount pattern: the literal label (case-insensitive, the
colon included in the label as in the source regexes) followed by the
money tail.  Used for Balance Due, Total, Amount Due, Subtotal, Shipping
and Tax. -/
def tryLabelMoney (label : List Char) (l : List Char) : Option Nat :=
  match matchLitCI label l with
  | some r => (moneyTail r).map Prod.fst
  | none => none

/-- Search for a labelled amount anywhere in the text; value in cents. -/
def searchLabelMoney (label : List Char) (text : List Char) : Option Nat :=
  scanFirst (tryLabelMoney label) text

/-- The part between the word Discount and the colon in the first discount
pattern: a whitespace run (which may hold newlines) followed by a run of
characters that are neither colon nor newline, then the colon.  The
boolean tracks whether we are still inside the leading whitespace run. -/
def colonScan : Bool → List Char → Option (List Char)
  | _, [] => none
  | inWs, c :: r =>
      if c = ':' then some r
      else if inWs && isSpc c then colonScan true r
      else if c ≠ '\n' then colonScan false r
      else none

/-- Discount pattern 1: the word Discount, anything but colon or newline,
a colon, then the money tail. -/
def tryDiscountP1 (l : List Char) : Option Nat :=
  match matchLitCI "Discount".toList l with
  | some r =>
      match colonScan true r with
      | some r2 => (moneyTail r2).map Prod.fst
      | none => none
  | none => none

/-- The percentage-shaped number group: one or more digits, an optional
dot, then any further digits.  Returns integer digits, fraction digits
and the remainder. -/
def numGroup (l : List Char) : Option (List Char × List Char × List Char) :=
  let (ds, r1) := takeRun isDig l
  if ds.isEmpty then none
  else
    match r1 with
    | '.' :: r2 =>
        let (fs, r3) := takeRun isDig r2
        some (ds, fs, r3)
    | _ => some (ds, [], r1)

/-- Rational value of a number group (integer and fraction digit lists). -/
def qOfNumGroup (ds fs : List Char) : ℚ :=
  (natOfDigits ds : ℚ) + (natOfDigits fs : ℚ) / (10 : ℚ) ^ fs.length

/-- Discount pattern 2: optional dollar sign, captured amount, optional
whitespace, optional opening parenthesis, a required number, optional
percent sign, optional closing parenthesis, whitespace, then the word
discount (the whole search is case-insensitive in the source). -/
def tryDiscountP2 (l : List Char) : Option Nat :=
  match amountGroup (optChar '$' l) with
  | none => none
  | some (v, r1) =>
      match numGroup (optChar '(' (skipWs r1)) with
      | none => none
      | some (_, _, r4) =>
          match matchLitCI "discount".toList (skipWs (optChar ')' (optChar '%' r4))) with
          | some _ => some v
          | none => none

/-- Discount pattern 3: Discount Amount : then the money tail. -/
def tryDiscountP3 (l : List Char) : Option Nat :=
  match matchLitCI "Discount".toList l with
  | some r1 =>
      match matchLitCI "Amount".toList (skipWs r1) with
      | some r2 =>
          match skipWs r2 with
          | ':' :: r3 => (moneyTail r3).map Prod.fst
          | _ => none
      | none => none
  | none => none

/-- Discount patterns 4 to 6 (Savings, Deduction, Less): a literal word,
optional whitespace, a colon, then the money tail. -/
def tryWordColonMoney (word : List Char) (l : List Char) : Option Nat :=
  match matchLitCI word l with
  | some r1 =>
      match skipWs r1 with
      | ':' :: r2 => (moneyTail r2).map Prod.fst
      | _ => none
  | none => none

/-- The discount-amount cascade of extract_financials_with_validation:
the six patterns are searched in order and the first match wins (cents). -/
def searchDiscountAmount (text : List Char) : Option Nat :=
  (scanFirst tryDiscountP1 text)
    <|> (scanFirst tryDiscountP2 text)
    <|> (scanFirst tryDiscountP3 text)
    <|> (scanFirst (tryWordColonMoney "Savings".toList) text)
    <|> (scanFirst (tryWordColonMoney "Deduction".toList) text)
    <|> (scanFirst (tryWordColonMoney "Less".toList) text)

/-- Discount-percentage pattern 1: the word Discount, whitespace, optional
opening parenthesis, then a required number (the trailing optional percent
sign and parenthesis cannot fail). -/
def tryPctP1 (l : List Char) : Option (List Char × List Char) :=
  match matchLitCI "Discount".toList l with
  | some r =>
      match numGroup (optChar '(' (skipWs r)) with
      | some (ds, fs, _) => some (ds, fs)
      | none => none
  | none => none

/-- Discount-percentage pattern 2: a number, a percent sign, whitespace,
then the word discount. -/
def tryPctP2 (l : List Char) : Option (List Char × List Char) :=
  match numGroup l with
  | some (ds, fs, r1) =>
      match r1 with
      | '%' :: r2 =>
          match matchLitCI "discount".toList (skipWs r2) with
          | some _ => some (ds, fs)
          | none => none
      | _ => none
  | none => none

/-- Discount-percentage pattern 3: Discount Rate : number percent. -/
def tryPctP3 (l : List Char) : Option (List Char × List Char) :=
  match matchLitCI "Discount".toList l with
  | some r1 =>
      match matchLitCI "Rate".toList (skipWs r1) with
      | some r2 =>
          match skipWs r2 with
          | ':' :: r3 =>
              match numGroup (skipWs r3) with
              | some (ds, fs, r4) =>
                  match r4 with
                  | '%' :: _ => some (ds, fs)
                  | _ => none
              | none => none
          | _ => none
      | none => none
  | none => none

/-- The discount-percentage cascade: three patterns in order, yielding
the integer and fraction digit groups of the matched percentage. -/
def searchDiscountPct (text : List Char) : Option (List Char × List Char) :=
  (scanFirst tryPctP1 text)
    <|> (scanFirst tryPctP2 text)
    <|> (scanFirst tryPctP3 text)

/-- Cents to Decimal value. -/
def centsQ (n : Nat) : ℚ := (n : ℚ) / 100

/-- The label-extraction part of extract_financials_with_validation
(pdfplumber_parser.py lines 70-155): final_total from Balance Due, then
Total, then Amount Due; subtotal, shipping and tax from their own single
labels; discount amount and percentage from their cascades. -/
def extractFinancialsRaw (text : List Char) : FinancialFigures :=
  let ft :=
    match searchLabelMoney "Balance Due:".toList text with
    | some v => centsQ v
    | none =>
        match searchLabelMoney "Total:".toList text with
        | some v => centsQ v
        | none =>
            match searchLabelMoney "Amount Due:".toList text with
            | some v => centsQ v
            | none => 0
  { subtotal := (searchLabelMoney "Subtotal:".toList text).elim 0 centsQ
    discount := (searchDiscountAmount text).elim 0 centsQ
    discount_percentage := (searchDiscountPct text).elim 0 (fun p => qOfNumGroup p.1 p.2)
    shipping := (searchLabelMoney "Shipping:".toList text).elim 0 centsQ
    tax := (searchLabelMoney "Tax:".toList text).elim 0 centsQ
    final_total := ft }

/-- extract_financials_with_validation: label extraction followed by the
cross-derivation rules. -/
def extract_financials_with_validation (text : List Char) : FinancialFigures :=
  reconcileFinancials (extractFinancialsRaw text)

/-! ### Line-item, metadata, validation and pipeline definitions -/

/-- Python str.replace(pat, empty string): remove every occurrence of a
nonempty pattern, scanning left to right.  Fuel is the text length. -/
def removeAllAux (pat : List Char) : Nat → List Char → List Char
  | _, [] => []
  | 0, l => l
  | fuel + 1, l@(c :: rest) =>
      match matchLit pat l with
      | some r => removeAllAux pat fuel r
      | none => c :: removeAllAux pat fuel rest

/-- Remove every occurrence of a substring, as str.replace with the empty
replacement. -/
def removeAll (l pat : List Char) : List Char := removeAllAux pat l.length l

/-- The group of the vendor label patterns, the regex piece of shape
whitespace-star then one-or-more characters outside a forbidden class.
The greedy whitespace run backtracks: the group starts at the largest
offset not past the whitespace run whose character exists and is not
forbidden, and extends maximally. -/
def groupWsPlusAux (bad : Char → Bool) (l : List Char) : Nat → Option (List Char)
  | 0 =>
      match l with
      | c :: _ => if bad c then none else some (l.takeWhile (fun x => !bad x))
      | [] => none
  | k + 1 =>
      match l.drop (k + 1) with
      | c :: _ =>
          if bad c then groupWsPlusAux bad l k
          else some ((l.drop (k + 1)).takeWhile (fun x => !bad x))
      | [] => groupWsPlusAux bad l k

/-- See `groupWsPlusAux`: the group search starts at the end of the
maximal whitespace run and backtracks one character at a time. -/
def groupWsPlus (bad : Char → Bool) (l : List Char) : Option (List Char) :=
  groupWsPlusAux bad l (l.takeWhile isSpc).length

/-- Vendor pattern 1 of extract_metadata_with_fallbacks, anchored at the
start of the text: an upper-case letter followed by one or more letters,
whitespace or ampersands.  The optional company-suffix group in the
source regex can only ever match the empty string after the greedy run,
so the captured group is the letter plus the maximal run. -/
def tryVendorV1 (text : List Char) : Option (List Char) :=
  match text with
  | c :: rest =>
      if 'A' ≤ c && c ≤ 'Z' then
        let (run, _) := takeRun (fun x => isAsciiAlpha x || isSpc x || x = '&') rest
        if run.isEmpty then none else some (c :: run)
      else none
  | [] => none

/-- Vendor patterns 2 to 4: a case-sensitive label followed by optional
whitespace and a nonempty run of non-newline characters. -/
def tryLabelLine (label : List Char) (l : List Char) : Option (List Char) :=
  match matchLit label l with
  | some r => groupWsPlus (fun c => c = '\n') r
  | none => none

/-- The vendor-name clean-up applied after a vendor pattern matches:
strip, then remove the literal lower-case word invoice (when present in
the lower-cased name) and strip, then remove the literal upper-case word
INVOICE and strip.  Both replacements are case-sensitive, as in the
source. -/
def vendorClean (v : List Char) : List Char :=
  let v1 := pyStrip v
  let v2 :=
    if containsSub (pyLower v1) "invoice".toList then
      pyStrip (removeAll v1 "invoice".toList)
    else v1
  if containsSub v2 "INVOICE".toList then pyStrip (removeAll v2 "INVOICE".toList)
  else v2

/-- Date group shared by date patterns 1 and 2: letters, whitespace, one
or two digits, whitespace, four digits.  A digit run longer than two
cannot be split because the following token must be whitespace, and the
four digits need no trailing boundary. -/
def dateGroupAlpha (l : List Char) : Option (List Char) :=
  let (ls, r1) := takeRun isAsciiAlpha l
  if ls.isEmpty then none
  else
    let (w1, r2) := takeRun isSpc r1
    if w1.isEmpty then none
    else
      let (d1, r3) := takeRun isDig r2
      if d1.isEmpty || decide (2 < d1.length) then none
      else
        let (w2, r4) := takeRun isSpc r3
        if w2.isEmpty then none
        else
          let d2 := r4.take 4
          if d2.length = 4 && d2.all isDig then some (ls ++ w1 ++ d1 ++ w2 ++ d2)
          else none

/-- Date pattern 1: the label Date: then whitespace then the alphabetic
date group. -/
def tryDate1 (l : List Char) : Option (List Char) :=
  match matchLitCI "Date:".toList l with
  | some r => dateGroupAlpha (skipWs r)
  | none => none

/-- Date pattern 2: the label Invoice Date: then whitespace then the
alphabetic date group. -/
def tryDate2 (l : List Char) : Option (List Char) :=
  match matchLitCI "Invoice Date:".toList l with
  | some r => dateGroupAlpha (skipWs r)
  | none => none

/-- Date pattern 3: exactly three word characters, whitespace, one or two
digits, whitespace, four digits. -/
def tryDate3 (l : List Char) : Option (List Char) :=
  let w := l.take 3
  if w.length = 3 && w.all isWordChar then
    let r1 := l.drop 3
    let (w1, r2) := takeRun isSpc r1
    if w1.isEmpty then none
    else
      let (d1, r3) := takeRun isDig r2
      if d1.isEmpty || decide (2 < d1.length) then none
      else
        let (w2, r4) := takeRun isSpc r3
        if w2.isEmpty then none
        else
          let d2 := r4.take 4
          if d2.length = 4 && d2.all isDig then some (w ++ w1 ++ d1 ++ w2 ++ d2)
          else none
  else none

/-- Date pattern 4: one or two digits, slash, one or two digits, slash,
four digits. -/
def tryDate4 (l : List Char) : Option (List Char) :=
  let (d1, r1) := takeRun isDig l
  if d1.isEmpty || decide (2 < d1.length) then none
  else
    match r1 with
    | '/' :: r2 =>
        let (d2, r3) := takeRun isDig r2
        if d2.isEmpty || decide (2 < d2.length) then none
        else
          match r3 with
          | '/' :: r4 =>
              let d3 := r4.take 4
              if d3.length = 4 && d3.all isDig then
                some (d1 ++ '/' :: d2 ++ '/' :: d3)
              else none
          | _ => none
    | _ => none

/-- Date pattern 5: the label Order Date, optional whitespace, a colon or
hyphen, then optional whitespace and a nonempty run of characters that
are neither comma nor newline. -/
def tryDate5 (l : List Char) : Option (List Char) :=
  match matchLitCI "Order Date".toList l with
  | some r1 =>
      match skipWs r1 with
      | c :: r2 =>
          if c = ':' || c = '-' then
            groupWsPlus (fun x => x = ',' || x = '\n') r2
          else none
      | [] => none
  | none => none

/-- Invoice-number pattern 1: a hash sign, optional whitespace, then a
digit run. -/
def tryInv1 (l : List Char) : Option (List Char) :=
  match l with
  | '#' :: r =>
      let (ds, _) := takeRun isDig (skipWs r)
      if ds.isEmpty then none else some ds
  | _ => none

/-- Invoice-number patterns 2 and 3 (identical under the case-insensitive
search): the word Invoice, optional whitespace, an optional hash,
optional whitespace, an optional colon, optional whitespace, then a
digit run. -/
def tryInv2 (l : List Char) : Option (List Char) :=
  match matchLitCI "Invoice".toList l with
  | some r =>
      let (ds, _) := takeRun isDig (skipWs (optChar ':' (skipWs (optChar '#' (skipWs r)))))
      if ds.isEmpty then none else some ds
  | none => none

/-- Invoice-number pattern 4: the label Invoice Number: then optional
whitespace and a digit run. -/
def tryInv4 (l : List Char) : Option (List Char) :=
  match matchLitCI "Invoice Number:".toList l with
  | some r =>
      let (ds, _) := takeRun isDig (skipWs r)
      if ds.isEmpty then none else some ds
  | none => none

/-- The metadata dictionary of extract_metadata_with_fallbacks; a missing
key is a missing entry. -/
structure Metadata where
  vendor : Option (List Char)
  date : Option (List Char)
  invoice_number : Option (List Char)
deriving DecidableEq, Repr

/-- extract_metadata_with_fallbacks (pdfplumber_parser.py lines 214-267):
vendor from four patterns with the invoice-word clean-up and a
first-line fallback, date from five patterns, invoice number from four
patterns; in each cascade the first matching pattern wins. -/
def extract_metadata_with_fallbacks (text : List Char) : Metadata :=
  let vraw : Option (List Char) :=
    (tryVendorV1 text)
      <|> (scanFirst (tryLabelLine "From:".toList) text)
      <|> (scanFirst (tryLabelLine "Vendor:".toList) text)
      <|> (scanFirst (tryLabelLine "Bill From:".toList) text)
  let vendor : Option (List Char) :=
    match vraw with
    | some v => some (vendorClean v)
    | none =>
        let fl := pyStrip (text.takeWhile (fun c => c ≠ '\n'))
        if !fl.isEmpty && decide (3 < fl.length) then some fl else none
  let date : Option (List Char) :=
    ((scanFirst tryDate1 text)
      <|> (scanFirst tryDate2 text)
      <|> (scanFirst tryDate3 text)
      <|> (scanFirst tryDate4 text)
      <|> (scanFirst tryDate5 text)).map pyStrip
  let inv : Option (List Char) :=
    (scanFirst tryInv1 text)
      <|> (scanFirst tryInv2 text)
      <|> (scanFirst tryInv2 text)
      <|> (scanFirst tryInv4 text)
  { vendor := vendor, date := date, invoice_number := inv }

/-- The LineItem dataclass of domain/models.py. -/
structure LineItem where
  description : List Char
  quantity : ℚ
  unit_price : ℚ
  amount : ℚ
deriving DecidableEq, Repr

/-- The description class of the fallback line-item patterns: anything but
a dollar sign or a newline. -/
def descClass (c : Char) : Bool := !(c = '$' || c = '\n')

/-- One raw match of a fallback line-item pattern: description and the
three numeric groups (quantity, unit price in cents, amount in cents). -/
structure RawItemMatch where
  desc : List Char
  qty : Nat
  unitCents : Nat
  amountCents : Nat
deriving DecidableEq, Repr

/-- The numeric tail of the fallback item patterns: whitespace, a digit
run, whitespace, an optional dollar sign (first pattern only), a
two-decimal amount, whitespace, an optional dollar sign, a two-decimal
amount.  Deterministic: every greedy run is followed by a token from a
disjoint character class. -/
def itemNumTail (withDollar : Bool) (l : List Char) :
    Option ((Nat × Nat × Nat) × List Char) :=
  let (w1, r1) := takeRun isSpc l
  if w1.isEmpty then none
  else
    let (q, r2) := takeRun isDig r1
    if q.isEmpty then none
    else
      let (w2, r3) := takeRun isSpc r2
      if w2.isEmpty then none
      else
        match amountGroup (if withDollar then optChar '$' r3 else r3) with
        | none => none
        | some (up, r4) =>
            let (w3, r5) := takeRun isSpc r4
            if w3.isEmpty then none
            else
              match amountGroup (if withDollar then optChar '$' r5 else r5) with
              | none => none
              | some (am, r6) => some ((natOfDigits q, up, am), r6)

/-- The lazy extension of the description group: the non-greedy
ten-or-more quantifier first tries the numeric tail, then extends the
description by one class character at a time. -/
def mkRawItem (accRev : List Char) (p : (Nat × Nat × Nat) × List Char) :
    RawItemMatch × List Char :=
  ({ desc := accRev.reverse, qty := p.1.1, unitCents := p.1.2.1,
     amountCents := p.1.2.2 }, p.2)

/-- See `descExtend`: the lazy quantifier first tries the numeric tail at
the current split and on failure moves one description character over. -/
def descExtend (withDollar : Bool) (accRev : List Char) :
    List Char → Option (RawItemMatch × List Char)
  | [] => (itemNumTail withDollar []).map (mkRawItem accRev)
  | l@(c :: t) =>
      match itemNumTail withDollar l with
      | some p => some (mkRawItem accRev p)
      | none => if descClass c then descExtend withDollar (c :: accRev) t else none

/-- Try a fallback item pattern at one start position: a letter, at least
ten description-class characters (the lazy minimum), then the numeric
tail, extending the description lazily on failure. -/
def tryItemAt (withDollar : Bool) (l : List Char) : Option (RawItemMatch × List Char) :=
  match l with
  | c :: rest =>
      if isAsciiAlpha c then
        let b10 := rest.take 10
        if b10.length = 10 && b10.all descClass then
          descExtend withDollar (b10.reverse ++ [c]) (rest.drop 10)
        else none
      else none
  | [] => none

/-- re.findall over one fallback pattern: scan start positions leftmost
first and continue after the end of each match (non-overlapping).  Fuel
is the text length. -/
def findItemsAux (withDollar : Bool) : Nat → List Char → List RawItemMatch
  | 0, _ => []
  | _ + 1, [] => []
  | fuel + 1, l@(_ :: rest) =>
      match tryItemAt withDollar l with
      | some (m, rem) => m :: findItemsAux withDollar fuel rem
      | none => findItemsAux withDollar fuel rest

/-- extract_line_items_from_text_patterns (pdfplumber_parser.py lines
330-353): both patterns are applied with findall and every match of each
becomes a LineItem (the second pattern differs only in not allowing
dollar signs before the amounts). -/
def extract_line_items_from_text_patterns (text : List Char) : List LineItem :=
  let m1 := findItemsAux true text.length text
  let m2 := findItemsAux false text.length text
  (m1 ++ m2).map fun m =>
    { description := pyStrip m.desc
      quantity := (m.qty : ℚ)
      unit_price := centsQ m.unitCents
      amount := centsQ m.amountCents }

/-- One pdfplumber table cell: a string or the None produced for an empty
region. -/
abbrev Cell := Option (List Char)

/-- One extracted table: the first extracted row becomes the column
header and the remaining rows the body, as in extract_tables. -/
structure PTable where
  header : List Cell
  body : List (List Cell)
deriving DecidableEq, Repr

/-- Column preparation in parse_table_to_line_items: falsy cells become
the empty name, others are lower-cased and stripped. -/
def colName (c : Cell) : List Char :=
  match c with
  | none => []
  | some s => if s.isEmpty then [] else pyStrip (pyLower s)

/-- The column synonym lists of parse_table_to_line_items, in the
dictionary order of the source. -/
def colVariations : List (List Char × List (List Char)) :=
  [("description".toList,
      ["description".toList, "item".toList, "product".toList, "service".toList,
        "name".toList]),
    ("quantity".toList, ["quantity".toList, "qty".toList, "count".toList]),
    ("unit_price".toList,
      ["unit price".toList, "price".toList, "rate".toList, "unit cost".toList,
        "cost".toList]),
    ("amount".toList,
      ["amount".toList, "total".toList, "line total".toList, "subtotal".toList])]

/-- One renaming pass: the first column whose name contains a variation is
renamed to the canonical name (a pandas rename maps every column with
that label). -/
def renameOnce (cols : List (List Char)) (std : List Char) (vars : List (List Char)) :
    List (List Char) :=
  match cols.find? (fun col => vars.any (fun v => containsSub col v)) with
  | some c => cols.map (fun col => if col = c then std else col)
  | none => cols

/-- The full renaming loop over the four canonical roles. -/
def renameColumns (cols : List (List Char)) : List (List Char) :=
  colVariations.foldl (fun cs p => renameOnce cs p.1 p.2) cols

/-- Python str applied to a cell: None renders as the four-letter word
None, as str(None) does. -/
def pyStrCell (c : Cell) : List Char :=
  match c with
  | none => "None".toList
  | some s => s

/-- Series.get on a labelled row; a missing label yields none.  Duplicate
labels are modelled by the first occurrence (pandas would return a
sub-Series there; no claim depends on tables with duplicate canonical
labels). -/
def rowGet (cols : List (List Char)) (row : List Cell) (key : List Char) : Option Cell :=
  ((cols.zip row).find? (fun p => p.1 = key)).map Prod.snd

/-- _is_header_row: the row is empty, or the space-joined text of its
truthy cells contains a header keyword. -/
def isHeaderRow (row : List Cell) : Bool :=
  row.isEmpty ||
    (let txt := pyLower (List.intercalate [' ']
      ((row.filterMap id).filter (fun s => !s.isEmpty)))
     ["item".toList, "description".toList, "quantity".toList, "price".toList,
       "amount".toList, "total".toList].any (fun k => containsSub txt k))

/-- Python Decimal construction from a string, finite values only: strip,
drop underscores, optional sign, digits with an optional point, an
optional exponent.  Yields none where Decimal would raise
InvalidOperation; the special values Infinity and NaN are not modelled
(no claim touches a table cell holding them). -/
def pyDecFinite (s : List Char) : Option ℚ :=
  let t := (pyStrip s).filter (fun c => c ≠ '_')
  let st := match t with
    | '+' :: r => ((1 : ℚ), r)
    | '-' :: r => ((-1 : ℚ), r)
    | _ => (1, t)
  let (ip, t2) := takeRun isDig st.2
  let ft := match t2 with
    | '.' :: r => takeRun isDig r
    | _ => ([], t2)
  if ip.isEmpty && ft.1.isEmpty then none
  else
    let base : ℚ := st.1 * ((natOfDigits ip : ℚ) + (natOfDigits ft.1 : ℚ) / (10 : ℚ) ^ ft.1.length)
    match ft.2 with
    | [] => some base
    | e :: r =>
        if e = 'e' || e = 'E' then
          let er := match r with
            | '+' :: rr => ((1 : ℤ), rr)
            | '-' :: rr => ((-1 : ℤ), rr)
            | _ => (1, r)
          let (ed, r2) := takeRun isDig er.2
          if ed.isEmpty || !r2.isEmpty then none
          else some (base * (10 : ℚ) ^ (er.1 * (natOfDigits ed : ℤ)))
        else none

/-- _safe_decimal on a row lookup: a missing key takes the Python default
argument; a None or empty cell takes it as well; otherwise the cell is
cleaned of dollar signs and commas, stripped and given to Decimal, whose
InvalidOperation on a malformed cell is NOT among the exceptions the row
loop catches, so it escapes as an error. -/
def safeDecimalCell (res : Option Cell) (dflt : ℚ) : Except Unit ℚ :=
  match res with
  | none => .ok dflt
  | some none => .ok dflt
  | some (some s) =>
      if s.isEmpty then .ok dflt
      else
        let clean := pyStrip (removeAll (removeAll s ['$']) [','])
        match pyDecFinite clean with
        | some q => .ok q
        | none => .error ()

/-- One body row of parse_table_to_line_items: skip header-like rows,
read the four canonical cells, and keep the row only when the
description is truthy and a numeric field is positive. -/
def rowToLineItem (cols : List (List Char)) (row : List Cell) :
    Except Unit (Option LineItem) := do
  if isHeaderRow row then
    return none
  else
    let desc := pyStrip (pyStrCell ((rowGet cols row "description".toList).getD (some [])))
    let q ← safeDecimalCell (rowGet cols row "quantity".toList) 1
    let up ← safeDecimalCell (rowGet cols row "unit_price".toList) 0
    let am ← safeDecimalCell (rowGet cols row "amount".toList) 0
    if !desc.isEmpty && (0 < q || 0 < up || 0 < am) then
      return some { description := desc, quantity := q, unit_price := up, amount := am }
    else
      return none

/-- parse_table_to_line_items (pdfplumber_parser.py lines 285-328). -/
def parse_table_to_line_items (t : PTable) : Except Unit (List LineItem) := do
  if t.body.isEmpty then
    return []
  else
    let cols := renameColumns (t.header.map colName)
    let mut acc : List LineItem := []
    for row in t.body do
      match ← rowToLineItem cols row with
      | some li => acc := acc ++ [li]
      | none => pure ()
    return acc

/-- The primary tabular path of extract_structured_line_items: every
tabular candidate contributes its parsed rows in order. -/
def primaryLineItems (tables : List PTable) : Except Unit (List LineItem) := do
  let mut primary : List LineItem := []
  for t in tables do
    primary := primary ++ (← parse_table_to_line_items t)
  return primary

/-- extract_structured_line_items (pdfplumber_parser.py lines 269-283):
the tabular candidates feed the primary path; the text-pattern fallback
runs exactly when the primary path produced no item. -/
def extract_structured_line_items (tables : List PTable) (text : List Char) :
    Except Unit (List LineItem) := do
  let primary ← primaryLineItems tables
  if primary.isEmpty then
    return primary ++ extract_line_items_from_text_patterns text
  else
    return primary

/-- The non-fatal business warnings that validate_business_logic prints,
one constructor per diagnostic message. -/
inductive Warning where
  | reconcileMismatch
  | lineItemsMismatch
  | discountExceedsSubtotal
  | invalidTotal
deriving DecidableEq, Repr

/-- validate_business_logic (pdfplumber_parser.py lines 355-386): four
independent, non-fatal checks; the prints are modelled as an emitted
warning list.  The unused text parameter of the source is dropped. -/
def validate_business_logic (f : FinancialFigures) (items : List LineItem) :
    List Warning :=
  let calculated := f.subtotal - f.discount + f.shipping + f.tax
  let w1 :=
    if 0 < f.final_total ∧ (1/10 : ℚ) < |calculated - f.final_total| then
      [Warning.reconcileMismatch]
    else []
  let itemsTotal := items.foldl (fun a i => a + i.amount) 0
  let w2 :=
    if 0 < f.subtotal ∧ (1/10 : ℚ) < |itemsTotal - f.subtotal| then
      [Warning.lineItemsMismatch]
    else []
  let w3 := if f.subtotal < f.discount then [Warning.discountExceedsSubtotal] else []
  let w4 := if f.final_total ≤ 0 ∧ 0 < f.subtotal then [Warning.invalidTotal] else []
  w1 ++ w2 ++ w3 ++ w4

/-- The InvoiceData record parse builds (domain/models.py). -/
structure InvoiceData where
  vendor : List Char
  invoice_number : List Char
  invoice_date : List Char
  total_amount : ℚ
  currency : List Char
  line_items : List LineItem
  raw_text : List Char
  subtotal : ℚ
  discount_amount : ℚ
  discount_percentage : ℚ
  shipping_amount : ℚ
  tax_amount : ℚ
deriving DecidableEq, Repr

/-- The body of PdfPlumberParser.parse after text and tables are in hand
(pdfplumber_parser.py lines 47-66): run the three extractors and build
the record; validate_business_logic only prints, so its result is not
part of the record.  The only error is the escaping InvalidOperation
from a malformed Decimal cell of a tabular candidate. -/
def parsePipeline (text : List Char) (tables : List PTable) :
    Except Unit InvoiceData := do
  let fin := extract_financials_with_validation text
  let md := extract_metadata_with_fallbacks text
  let items ← extract_structured_line_items tables text
  return { vendor := md.vendor.getD "Unknown Vendor".toList
           invoice_number := md.invoice_number.getD "N/A".toList
           invoice_date := md.date.getD "N/A".toList
           total_amount := fin.final_total
           currency := "USD".toList
           line_items := items
           raw_text := text.take 1000
           subtotal := fin.subtotal
           discount_amount := fin.discount
           discount_percentage := fin.discount_percentage
           shipping_amount := fin.shipping
           tax_amount := fin.tax }

/-- What reaches PdfPlumberParser.parse from the pdfplumber layer: either
the extracted text and tables, or a failure of extract_text or
extract_tables (already wrapped in ParsingFailedError there). -/
inductive PdfOutcome where
  | extracted (text : List Char) (tables : List PTable)
  | extractionFailure
deriving DecidableEq, Repr

/-- The single typed error of the parser: every exception crossing
PdfPlumberParser.parse is re-raised as ParsingFailedError (a subclass of
InvoiceParsingError, domain/exceptions.py). -/
inductive ParseErr where
  | parsingFailed
deriving DecidableEq, Repr

/-- PdfPlumberParser.parse (pdfplumber_parser.py lines 42-68): any
internal exception, including an upstream extraction failure, is caught
and re-raised as ParsingFailedError. -/
def PdfPlumberParse : PdfOutcome → Except ParseErr InvoiceData
  | .extracted t tb =>
      match parsePipeline t tb with
      | .ok r => .ok r
      | .error _ => .error .parsingFailed
  | .extractionFailure => .error .parsingFailed

/-- Does an Except hold an error?  Used to state refutations. -/
def exceptIsError : Except ε α → Bool
  | .error _ => true
  | .ok _ => false

/-! ### Normalizer (application/services/data_normalizer.py) -/

/-- One Python value of an extractor-output dictionary field that the
normalizer may treat as text or number. -/
inductive PyVal where
  | vnone
  | vstr (s : List Char)
  | vnum (q : ℚ)
deriving DecidableEq, Repr

/-- One entry of the line_items list of an extractor output. -/
structure RawLineItem where
  description : Option (List Char) := none
  quantity : Option PyVal := none
  unit_price : Option PyVal := none
  amount : Option PyVal := none
deriving DecidableEq, Repr

/-- An extractor-output dictionary as the normalizer reads it: each field
optional (a missing key), with the types the parsers produce (strings
for text fields, strings or floats for amounts). -/
structure RawInvoice where
  parsed_timestamp : Option (List Char) := none
  vendor : Option (List Char) := none
  invoice_number : Option (List Char) := none
  invoice_date : Option (List Char) := none
  subtotal : Option PyVal := none
  shipping_amount : Option PyVal := none
  tax_amount : Option PyVal := none
  total_amount : Option PyVal := none
  currency : Option (List Char) := none
  line_items : List RawLineItem := []
  line_item_description : Option (List Char) := none
deriving DecidableEq, Repr

/-- The canonical record produced by normalize: every canonical key
present, string fields stripped, numeric fields floats. -/
structure NormRecord where
  file_name : List Char
  vendor : List Char
  invoice_number : List Char
  invoice_date : List Char
  subtotal : ℚ
  shipping_amount : ℚ
  tax_amount : ℚ
  total_amount : ℚ
  currency : List Char
  line_item_description : List Char
  line_item_quantity : ℚ
  line_item_unit_price : ℚ
  line_item_amount : ℚ
  parsed_timestamp : List Char
deriving DecidableEq, Repr

/-- Python float over a string (the fragment _safe_float exercises),
reusing the Decimal grammar, which agrees with float for finite values;
the special values are not modelled. -/
def pyFloatParse (s : List Char) : Option ℚ := pyDecFinite s

/-- _safe_float: float(value) when not None, catching ValueError and
TypeError into 0.0; a missing key sees the Python default 0. -/
def safeFloat (v : Option PyVal) : ℚ :=
  match v with
  | none => 0
  | some .vnone => 0
  | some (.vnum q) => q
  | some (.vstr s) => (pyFloatParse s).getD 0

/-- _looks_like_filename: a file-ish fragment in the lower-cased text. -/
def looksLikeFilename (t : List Char) : Bool :=
  containsSub (pyLower t) ".pdf".toList || containsSub (pyLower t) "invoice_".toList
    || containsSub (pyLower t) "inv_".toList

/-- Exactly n digits next; returns the remainder. -/
def expectDigits (n : Nat) (l : List Char) : Option (List Char) :=
  let d := l.take n
  if d.length = n && d.all isDig then some (l.drop n) else none

/-- _looks_like_timestamp: the anchored ISO timestamp shape
digits 4, hyphen, 2, hyphen, 2, letter T, 2, colon, 2, colon, 2. -/
def looksLikeTimestamp (t : List Char) : Bool :=
  match expectDigits 4 t with
  | some ('-' :: r1) =>
      match expectDigits 2 r1 with
      | some ('-' :: r2) =>
          match expectDigits 2 r2 with
          | some ('T' :: r3) =>
              match expectDigits 2 r3 with
              | some (':' :: r4) =>
                  match expectDigits 2 r4 with
                  | some (':' :: r5) => (expectDigits 2 r5).isSome
                  | _ => false
              | _ => false
          | _ => false
      | _ => false
  | _ => false

/-- _looks_like_number: strip, drop leading hashes and whitespace, drop
the dots, then Python isdigit. -/
def looksLikeNumber (t : List Char) : Bool :=
  let t1 := pyStrip t
  if t1.isEmpty then false
  else pyIsDigit ((t1.dropWhile (fun c => c = '#' || isSpc c)).filter (fun c => c ≠ '.'))

/-- Word-boundary search driver: the three date patterns all begin with a
word character, so the boundary holds exactly when the previous
character is not a word character (or the position is the start). -/
def scanBoundary (tryAt : List Char → Bool) : Bool → List Char → Bool
  | _, [] => false
  | prevWord, l@(c :: rest) =>
      (!prevWord && tryAt l) || scanBoundary tryAt (isWordChar c) rest

/-- The month alternation of the first date-detection pattern. -/
def monthLits : List (List Char) :=
  ["Jan".toList, "Feb".toList, "Mar".toList, "Apr".toList, "May".toList,
    "Jun".toList, "Jul".toList, "Aug".toList, "Sep".toList, "Oct".toList,
    "Nov".toList, "Dec".toList]

/-- The tail shared by the worded date patterns: whitespace, a digit run
of length one or two, whitespace, four digits. -/
def wsDigitsYear (l : List Char) : Bool :=
  let (w1, r1) := takeRun isSpc l
  if w1.isEmpty then false
  else
    let (d1, r2) := takeRun isDig r1
    if d1.isEmpty || decide (2 < d1.length) then false
    else
      let (w2, r3) := takeRun isSpc r2
      if w2.isEmpty then false
      else
        let d2 := r3.take 4
        d2.length = 4 && d2.all isDig

/-- Date-detection pattern 1 at one position: a month word, any further
letters (the lower-case class is case-insensitive in the source search),
then the day-and-year tail. -/
def tryMonthDate (l : List Char) : Bool :=
  monthLits.any fun m =>
    match matchLitCI m l with
    | some r => wsDigitsYear (r.dropWhile isAsciiAlpha)
    | none => false

/-- Date-detection pattern 2 at one position: one or two digits, a slash
or hyphen, one or two digits, a slash or hyphen, two to four digits. -/
def tryNumDate (l : List Char) : Bool :=
  let (d1, r1) := takeRun isDig l
  if d1.isEmpty || decide (2 < d1.length) then false
  else
    match r1 with
    | s1 :: r2 =>
        if s1 = '/' || s1 = '-' then
          let (d2, r3) := takeRun isDig r2
          if d2.isEmpty || decide (2 < d2.length) then false
          else
            match r3 with
            | s2 :: r4 =>
                (s2 = '/' || s2 = '-') && decide (2 ≤ (takeRun isDig r4).1.length)
            | [] => false
        else false
    | [] => false

/-- Date-detection pattern 3 at one position: four digits, hyphen, two
digits, hyphen, two digits. -/
def tryIsoDate (l : List Char) : Bool :=
  match expectDigits 4 l with
  | some ('-' :: r1) =>
      match expectDigits 2 r1 with
      | some ('-' :: r2) => (expectDigits 2 r2).isSome
      | _ => false
  | _ => false

/-- _looks_like_date: strip, then search any of the three patterns with a
leading word boundary. -/
def looksLikeDate (t : List Char) : Bool :=
  let t1 := pyStrip t
  scanBoundary tryMonthDate false t1 || scanBoundary tryNumDate false t1
    || scanBoundary tryIsoDate false t1

/-- _extract_vendor: strip; a falsy or filename-shaped vendor falls back
to the SuperStore placeholder; otherwise non word, whitespace or
ampersand characters are removed and the result stripped, falling back
when that leaves nothing. -/
def extractVendor (raw : RawInvoice) : List Char :=
  let v := pyStrip (raw.vendor.getD [])
  if v.isEmpty || looksLikeFilename v then "SuperStore".toList
  else
    let v2 := pyStrip (v.filter (fun c => isWordChar c || isSpc c || c = '&'))
    if v2.isEmpty then "SuperStore".toList else v2

/-- _extract_invoice_number: when the number is date-shaped and the date
is not, the date field value is returned; otherwise a truthy number
loses its leading hashes and whitespace; an empty number yields the
empty string. -/
def extractInvoiceNumber (raw : RawInvoice) : List Char :=
  let n := pyStrip (raw.invoice_number.getD [])
  let d := pyStrip (raw.invoice_date.getD [])
  if looksLikeDate n && !looksLikeDate d then d
  else if !n.isEmpty then n.dropWhile (fun c => c = '#' || isSpc c)
  else []

/-- _extract_invoice_date: when the date is number-shaped and the number
is not, the number field value is returned; otherwise a truthy date
keeps only word, whitespace and comma characters. -/
def extractInvoiceDate (raw : RawInvoice) : List Char :=
  let d := pyStrip (raw.invoice_date.getD [])
  let n := pyStrip (raw.invoice_number.getD [])
  if looksLikeNumber d && !looksLikeNumber n then n
  else if !d.isEmpty then d.filter (fun c => isWordChar c || isSpc c || c = ',')
  else []

/-- _extract_currency: every branch of the source returns the fixed USD
code. -/
def extractCurrency (raw : RawInvoice) : List Char :=
  let c := pyUpper (pyStrip (raw.currency.getD []))
  if c.isEmpty || looksLikeTimestamp c then "USD".toList
  else if c = "USD".toList || c = "US$".toList || c = "$".toList then "USD".toList
  else "USD".toList

/-- _extract_description_from_other_fields: the first truthy string
candidate that is not number-shaped and whose strip is longer than three
and not all digits. -/
def firstOtherDesc : List PyVal → List Char
  | [] => []
  | v :: rest =>
      match v with
      | .vstr s =>
          if !s.isEmpty && !looksLikeNumber s then
            let cleaned := pyStrip s
            if decide (3 < cleaned.length) && !pyIsDigit cleaned then cleaned
            else firstOtherDesc rest
          else firstOtherDesc rest
      | _ => firstOtherDesc rest

/-- The candidate list of _extract_description_from_other_fields:
shipping_amount, line_item_description, vendor (a numeric
shipping_amount fails the isinstance str test). -/
def extractDescriptionFromOtherFields (raw : RawInvoice) : List Char :=
  firstOtherDesc
    [raw.shipping_amount.getD .vnone,
      (raw.line_item_description.map PyVal.vstr).getD .vnone,
      (raw.vendor.map PyVal.vstr).getD .vnone]

/-- _extract_line_items: only the first entry of line_items feeds the
flat line_item fields; with no entries the defaults stand. -/
def extractLineItems (raw : RawInvoice) : List Char × ℚ × ℚ × ℚ :=
  match raw.line_items with
  | [] => ([], 0, 0, 0)
  | first :: _ =>
      let d0 := pyStrip (first.description.getD [])
      let d := if d0.isEmpty then extractDescriptionFromOtherFields raw else d0
      (d, safeFloat first.quantity, safeFloat first.unit_price, safeFloat first.amount)

/-- InvoiceDataNormalizer.normalize (data_normalizer.py lines 29-81) with
_validate_and_clean folded in (it strips the string fields; every
canonical key is present by construction).  The current time taken when
no parsed_timestamp is supplied is passed explicitly as now. -/
def normalize (raw : RawInvoice) (filename : List Char) (now : List Char) : NormRecord :=
  let pts :=
    match raw.parsed_timestamp with
    | some s => if s.isEmpty then now else s
    | none => now
  let li := extractLineItems raw
  { file_name := pyStrip filename
    vendor := pyStrip (extractVendor raw)
    invoice_number := pyStrip (extractInvoiceNumber raw)
    invoice_date := pyStrip (extractInvoiceDate raw)
    subtotal := safeFloat raw.subtotal
    shipping_amount := safeFloat raw.shipping_amount
    tax_amount := safeFloat raw.tax_amount
    total_amount := safeFloat raw.total_amount
    currency := pyStrip (extractCurrency raw)
    line_item_description := pyStrip li.1
    line_item_quantity := li.2.1
    line_item_unit_price := li.2.2.1
    line_item_amount := li.2.2.2
    parsed_timestamp := pyStrip pts }

/-- Reading a normalized record back as an extractor-output dictionary:
every canonical key is present with its string or float value; there is
no line_items key, so that list is empty. -/
def NormRecord.toRaw (n : NormRecord) : RawInvoice :=
  { parsed_timestamp := some n.parsed_timestamp
    vendor := some n.vendor
    invoice_number := some n.invoice_number
    invoice_date := some n.invoice_date
    subtotal := some (.vnum n.subtotal)
    shipping_amount := some (.vnum n.shipping_amount)
    tax_amount := some (.vnum n.tax_amount)
    total_amount := some (.vnum n.total_amount)
    currency := some n.currency
    line_items := []
    line_item_description := some n.line_item_description }

/-! ### difflib.SequenceMatcher (used by parser_confidence.py)

The ratio of SequenceMatcher(None, a, b) is 2*M/T where M is the total
size of the matching blocks and T the total length.  The matcher is
embedded with its b2j index (including the autojunk filter that drops
popular elements when b has at least 200 elements), the j2len dynamic
programme of find_longest_match, the plain extension loops (the junk
extension loops are vacuous because no isjunk argument is ever passed),
and the recursive block splitting of get_matching_blocks, whose
adjacent-block merging does not change the sum M. -/

/-- Ascending positions of a character in b. -/
def positionsOf (b : List Char) (c : Char) : List Nat :=
  (List.range b.length).filter (fun j => b.get? j = some c)

/-- The b2j index with the autojunk filter: when b has at least 200
elements, characters occurring more than length/100 + 1 times are
dropped. -/
def b2j (b : List Char) (c : Char) : List Nat :=
  let pos := positionsOf b c
  if 200 ≤ b.length && b.length / 100 + 1 < pos.length then [] else pos

/-- Lookup in the j2len map with default zero. -/
def j2get (m : List (Nat × Nat)) (j : Nat) : Nat :=
  match m.find? (fun p => p.1 = j) with
  | some p => p.2
  | none => 0

/-- The inner loop of find_longest_match over the positions of a[i] in b:
skip positions below blo, stop at the first position at or past bhi,
chain lengths read the previous row at j-1 (the dictionary lookup of a
negative index when j is zero yields the default zero), and a strictly
longer chain updates the best block. -/
def flmInner (i blo bhi : Nat) (old : List (Nat × Nat)) :
    List Nat → List (Nat × Nat) → Nat × Nat × Nat → List (Nat × Nat) × (Nat × Nat × Nat)
  | [], newm, best => (newm, best)
  | j :: js, newm, best =>
      if j < blo then flmInner i blo bhi old js newm best
      else if bhi ≤ j then (newm, best)
      else
        let k := (if j = 0 then 0 else j2get old (j - 1)) + 1
        let best' := if best.2.2 < k then (i + 1 - k, j + 1 - k, k) else best
        flmInner i blo bhi old js (newm ++ [(j, k)]) best'

/-- The row loop of find_longest_match: one inner pass per index of a in
the alo..ahi range, each starting from a fresh j2len map. -/
def flmRows (a b : List Char) (blo bhi : Nat) :
    Nat → Nat → List (Nat × Nat) → Nat × Nat × Nat → Nat × Nat × Nat
  | _, 0, _, best => best
  | i, cnt + 1, m, best =>
      let st := flmInner i blo bhi m (b2j b (a.getD i default)) [] best
      flmRows a b blo bhi (i + 1) cnt st.1 st.2

/-- The first extension loop: grow the best block to the left while the
adjacent characters agree (no characters are junk here). -/
def extendLeft (a b : List Char) (alo blo : Nat) :
    Nat → Nat × Nat × Nat → Nat × Nat × Nat
  | 0, best => best
  | fuel + 1, (bi, bj, k) =>
      if alo < bi && blo < bj && a.getD (bi - 1) default = b.getD (bj - 1) default then
        extendLeft a b alo blo fuel (bi - 1, bj - 1, k + 1)
      else (bi, bj, k)

/-- The second extension loop: grow the best block to the right while the
adjacent characters agree. -/
def extendRight (a b : List Char) (ahi bhi : Nat) :
    Nat → Nat × Nat × Nat → Nat × Nat × Nat
  | 0, best => best
  | fuel + 1, (bi, bj, k) =>
      if bi + k < ahi && bj + k < bhi && a.getD (bi + k) default = b.getD (bj + k) default then
        extendRight a b ahi bhi fuel (bi, bj, k + 1)
      else (bi, bj, k)

/-- find_longest_match on the ranges a[alo:ahi], b[blo:bhi]. -/
def find_longest_match (a b : List Char) (alo ahi blo bhi : Nat) : Nat × Nat × Nat :=
  let best1 := flmRows a b blo bhi alo (ahi - alo) [] (alo, blo, 0)
  let best2 := extendLeft a b alo blo best1.1 best1
  extendRight a b ahi bhi ahi best2

/-- Total size of the matching blocks: the recursive splitting of
get_matching_blocks around each longest match; fuel bounds the recursion
depth (the sum of the two range widths shrinks at every level). -/
def matchSum (a b : List Char) : Nat → Nat → Nat → Nat → Nat → Nat
  | 0, _, _, _, _ => 0
  | fuel + 1, alo, ahi, blo, bhi =>
      let t := find_longest_match a b alo ahi blo bhi
      if t.2.2 = 0 then 0
      else
        matchSum a b fuel alo t.1 blo t.2.1 + t.2.2
          + matchSum a b fuel (t.1 + t.2.2) ahi (t.2.1 + t.2.2) bhi

/-- M of SequenceMatcher(None, a, b): matching blocks over the full
ranges. -/
def totalMatched (a b : List Char) : Nat :=
  matchSum a b (a.length + b.length + 1) 0 a.length 0 b.length

/-- SequenceMatcher.ratio: 2*M/T, or 1.0 on two empty sequences. -/
def ratioQ (a b : List Char) : ℚ :=
  if a.length + b.length = 0 then 1
  else 2 * (totalMatched a b : ℚ) / ((a.length : ℚ) + (b.length : ℚ))

/-! ### parser_confidence.py -/

/-- Decimal accepts the special values Infinity and NaN (optionally
signalling, with an optional integer diagnostic), case-insensitively and
after an optional sign. -/
def pyDecSpecial (s : List Char) : Bool :=
  let t := pyLower ((pyStrip s).filter (fun c => c ≠ '_'))
  let t1 := match t with
    | '+' :: r => r
    | '-' :: r => r
    | _ => t
  t1 = "inf".toList || t1 = "infinity".toList ||
    (match matchLit "nan".toList (match t1 with | 's' :: r => r | _ => t1) with
     | some r => r.all isDig
     | none => false)

/-- Does Decimal(str) succeed on this string? -/
def pyDecParses (s : List Char) : Bool := (pyDecFinite s).isSome || pyDecSpecial s

/-- numeric_confidence: None yields 0.0; a value whose str form Decimal
accepts yields 0.95 (str of a float always parses); anything else 0.0. -/
def numeric_confidence (v : Option PyVal) : ℚ :=
  match v with
  | none => 0
  | some .vnone => 0
  | some (.vnum _) => 95 / 100
  | some (.vstr s) => if pyDecParses s then 95 / 100 else 0

/-- The anchored slash-date shape of date_confidence. -/
def trySlashDate (l : List Char) : Bool :=
  let (d1, r1) := takeRun isDig l
  if d1.isEmpty || decide (2 < d1.length) then false
  else
    match r1 with
    | '/' :: r2 =>
        let (d2, r3) := takeRun isDig r2
        if d2.isEmpty || decide (2 < d2.length) then false
        else
          match r3 with
          | '/' :: r4 => decide (2 ≤ (takeRun isDig r4).1.length)
          | _ => false
    | _ => false

/-- date_confidence: 0.95 for an ISO prefix, 0.85 for a slash-date
prefix, 0.4 for any other truthy value, 0.0 for a falsy one. -/
def date_confidence (v : Option (List Char)) : ℚ :=
  match v with
  | none => 0
  | some s =>
      if s.isEmpty then 0
      else if tryIsoDate s then 95 / 100
      else if trySlashDate s then 85 / 100
      else 4 / 10

/-- string_similarity_confidence: 0.0 when either side is falsy,
otherwise the SequenceMatcher ratio of the lower-cased strings. -/
def string_similarity_confidence (a b : List Char) : ℚ :=
  if a.isEmpty || b.isEmpty then 0
  else ratioQ (pyLower a) (pyLower b)

/-- The optional context dictionary of compute_field_confidences. -/
structure ConfCtx where
  vendor : Option (List Char) := none
deriving DecidableEq, Repr

/-- The parsed record as compute_field_confidences reads it. -/
structure ConfParsed where
  subtotal : Option PyVal := none
  tax_amount : Option PyVal := none
  discount_amount : Option PyVal := none
  shipping_amount : Option PyVal := none
  total_amount : Option PyVal := none
  invoice_date : Option (List Char) := none
  due_date : Option (List Char) := none
  vendor : Option (List Char) := none
  invoice_number : Option (List Char) := none
  currency : Option (List Char) := none
  line_items : Option (List RawLineItem) := none
deriving DecidableEq, Repr

/-- The second argument of the vendor similarity: the context vendor when
a context is passed (a missing key behaving as falsy), else the vendor
itself. -/
def simArgB (ctx : Option ConfCtx) (vendor : Option (List Char)) : List Char :=
  match ctx with
  | some c => c.vendor.getD []
  | none => vendor.getD []

/-- compute_field_confidences (parser_confidence.py lines 30-43): the
eleven per-field heuristics, in the insertion order of the source. -/
def compute_field_confidences (p : ConfParsed) (ctx : Option ConfCtx) :
    List (List Char × ℚ) :=
  [("subtotal".toList, numeric_confidence p.subtotal),
    ("tax_amount".toList, numeric_confidence p.tax_amount),
    ("discount_amount".toList, numeric_confidence p.discount_amount),
    ("shipping_amount".toList, numeric_confidence p.shipping_amount),
    ("total_amount".toList, numeric_confidence p.total_amount),
    ("invoice_date".toList, date_confidence p.invoice_date),
    ("due_date".toList, date_confidence p.due_date),
    ("vendor".toList,
      string_similarity_confidence (p.vendor.getD []) (simArgB ctx p.vendor)),
    ("invoice_number".toList,
      match p.invoice_number with
      | some s =>
          if !s.isEmpty && decide (3 ≤ s.length) then 9 / 10
          else if !s.isEmpty then 1 / 2
          else 0
      | none => 0),
    ("currency".toList,
      match p.currency with
      | some s => if !s.isEmpty then 95 / 100 else 0
      | none => 0),
    ("line_items".toList,
      min 1 (if !(p.line_items.getD []).isEmpty then (9 : ℚ) / 10 else 0))]

/-- overall_confidence: the unweighted mean of the map values, 0.0 on an
empty map. -/
def overall_confidence (conf : List (List Char × ℚ)) : ℚ :=
  if conf.isEmpty then 0
  else (conf.foldl (fun a q => a + q.2) 0) / (conf.length : ℚ)

/-! ### The PyPDF2-based InvoiceParser (infrastructure/parsers/invoice_parser.py) -/

/-- Decimal digits of a natural number, most significant first. -/
def natDigitsAux : Nat → Nat → List Char
  | 0, _ => []
  | fuel + 1, n =>
      if n < 10 then [Char.ofNat (48 + n)]
      else natDigitsAux fuel (n / 10) ++ [Char.ofNat (48 + n % 10)]

/-- Decimal rendering of a natural number. -/
def natDigits (n : Nat) : List Char := natDigitsAux (n + 1) n

/-- The dot-and-decimals tail of the first currency pattern, preceded by
greedy comma-separated thousands groups with backtracking: prefer one
more comma group, fall back to reading the decimal point here. -/
def dotTail (l : List Char) : Option (List Char × (Char × Char) × List Char) :=
  match l with
  | '.' :: e1 :: e2 :: r => if isDig e1 && isDig e2 then some ([], (e1, e2), r) else none
  | _ => none

/-- See `dotTail`; collects the digits of the comma groups. -/
def commaThenDot : List Char → Option (List Char × (Char × Char) × List Char)
  | l@(',' :: d1 :: d2 :: d3 :: r) =>
      if isDig d1 && isDig d2 && isDig d3 then
        match commaThenDot r with
        | some (ds, dec, rest) => some (d1 :: d2 :: d3 :: ds, dec, rest)
        | none => dotTail l
      else dotTail l
  | l => dotTail l

/-- The first currency pattern of _extract_currency_value at one start
position: optional dollar sign, optional whitespace, one to three digits
(longest first), comma-separated thousands groups, a dot and two
decimals.  Returns cents. -/
def tryCurrency1At (l : List Char) : Option Nat :=
  let l1 := skipWs (optChar '$' l)
  let attempt := fun (n : Nat) =>
    (match (l1.take n).all isDig && (l1.take n).length = n with
     | true =>
         match commaThenDot (l1.drop n) with
         | some (ds, dec, _) =>
             some (natOfDigits ((l1.take n) ++ ds) * 100
               + (10 * (dec.1.toNat - 48) + (dec.2.toNat - 48)))
         | none => none
     | false => none)
  (attempt 3) <|> (attempt 2) <|> (attempt 1)

/-- The second currency pattern at one start position: optional dollar
sign, optional whitespace, a digit run, a dot and two decimals. -/
def tryCurrency2At (l : List Char) : Option Nat :=
  let l1 := skipWs (optChar '$' l)
  let (ds, r1) := takeRun isDig l1
  if ds.isEmpty then none
  else
    match r1 with
    | '.' :: e1 :: e2 :: _ =>
        if isDig e1 && isDig e2 then
          some (natOfDigits ds * 100 + (10 * (e1.toNat - 48) + (e2.toNat - 48)))
        else none
    | _ => none

/-- _extract_currency_value: the first match of the first pattern, else
the first match of the second, else zero; as a float value. -/
def extractCV (l : List Char) : ℚ :=
  match scanFirst tryCurrency1At l with
  | some v => centsQ v
  | none =>
      match scanFirst tryCurrency2At l with
      | some v => centsQ v
      | none => 0

/-- The stripped, nonempty lines of the text, as _parse_invoice_text
builds them. -/
def pyLines (t : List Char) : List (List Char) :=
  ((t.splitOn '\n').map pyStrip).filter (fun l => !l.isEmpty)

/-- The running financial totals of _extract_all_financial_data. -/
structure FinState where
  subtotal : ℚ := 0
  shipping : ℚ := 0
  tax : ℚ := 0
  total : ℚ := 0
deriving DecidableEq, Repr

/-- The prev-same-next probe used for Balance Due, Shipping and Tax: the
first positive currency value among the previous line (when any), the
line itself, and the next line (when any). -/
def probePSN (lines : List (List Char)) (i : Nat) : Option ℚ :=
  let prev := if 0 < i then some (extractCV (lines.getD (i - 1) [])) else none
  let same := extractCV (lines.getD i [])
  let next := if i + 1 < lines.length then some (extractCV (lines.getD (i + 1) [])) else none
  match prev with
  | some a =>
      if 0 < a then some a
      else if 0 < same then some same
      else match next with
        | some b => if 0 < b then some b else none
        | none => none
  | none =>
      if 0 < same then some same
      else match next with
        | some b => if 0 < b then some b else none
        | none => none

/-- One iteration of the label loop of _extract_all_financial_data. -/
def finStep (lines : List (List Char)) (i : Nat) (st : FinState) : FinState :=
  let line := lines.getD i []
  let ll := pyLower line
  if containsSub ll "balance due".toList then
    match probePSN lines i with
    | some a => { st with total := a }
    | none => st
  else if ll = "subtotal".toList then
    if 0 < i then
      let a := extractCV (lines.getD (i - 1) [])
      if 0 < a then { st with subtotal := a } else st
    else st
  else if ll = "shipping".toList then
    match probePSN lines i with
    | some a => { st with shipping := a }
    | none => st
  else if ll = "tax".toList then
    match probePSN lines i with
    | some a => { st with tax := a }
    | none => st
  else st

/-- The label loop, one step per line. -/
def finLoop (lines : List (List Char)) : Nat → Nat → FinState → FinState
  | _, 0, st => st
  | i, cnt + 1, st => finLoop lines (i + 1) cnt (finStep lines i st)

/-- The largest element of a list of rationals (zero when empty; only
applied to nonempty lists, mirroring the guarded max calls). -/
def maxListQ (l : List ℚ) : ℚ := l.foldl max 0

/-- The smart-calculation block after the loop: derive the missing one of
shipping and tax from the total-minus-subtotal difference, or scan the
last lines for labelled candidate amounts (the loop variable leaks out
of the Python for loop as the last line index). -/
def smartCalc (lines : List (List Char)) (st : FinState) : FinState :=
  if 0 < st.total ∧ 0 < st.subtotal then
    let diff := st.total - st.subtotal
    if 0 < st.shipping ∧ st.tax = 0 then
      let ct := diff - st.shipping
      if 0 ≤ ct then { st with tax := ct } else st
    else if 0 < st.tax ∧ st.shipping = 0 then
      let cs := diff - st.tax
      if 0 ≤ cs then { st with shipping := cs } else st
    else if st.shipping = 0 ∧ st.tax = 0 ∧ 0 < diff then
      let iLast := lines.length - 1
      let lo := iLast - 10
      let hi := min lines.length (iLast + 10)
      let slice := (lines.drop lo).take (hi - lo)
      let shipC := slice.filterMap fun sl =>
        let a := extractCV sl
        if 0 < a ∧ a < st.subtotal ∧ containsSub (pyLower sl) "ship".toList then some a
        else none
      let taxC := slice.filterMap fun sl =>
        let a := extractCV sl
        if 0 < a ∧ a < st.subtotal ∧ !containsSub (pyLower sl) "ship".toList
            ∧ containsSub (pyLower sl) "tax".toList then some a
        else none
      let st1 := if !shipC.isEmpty then { st with shipping := maxListQ shipC } else st
      if !taxC.isEmpty then { st1 with tax := maxListQ taxC } else st1
    else st
  else st

/-- _extract_all_financial_data. -/
def extractAllFinancialData (lines : List (List Char)) : FinState :=
  smartCalc lines (finLoop lines 0 lines.length {})

/-- The basename of a POSIX path. -/
def pyBasename (p : List Char) : List Char :=
  (p.reverse.takeWhile (fun c => c ≠ '/')).reverse

/-- _extract_invoice_number of the PyPDF2 parser: a trailing numeric
filename part (at least three underscore-separated parts), else the
first hash-number in a line, else UNKNOWN. -/
def pyExtractInvoiceNumber (lines : List (List Char)) (filePath : List Char) :
    List Char :=
  let parts := (removeAll (pyBasename filePath) ".pdf".toList).splitOn '_'
  let fromName :=
    if 3 ≤ parts.length && pyIsDigit (parts.getLastD []) then some (parts.getLastD [])
    else none
  match fromName with
  | some v => v
  | none =>
      match lines.findSome? (fun line => scanFirst tryInv1 line) with
      | some v => v
      | none => "UNKNOWN".toList

/-- The worded fallback date pattern of the PyPDF2 parser: a bare month
word, whitespace, one or two digits, an optional comma, whitespace, four
digits, and a trailing word boundary; the whole match is returned. -/
def tryMonthDate2 (l : List Char) : Option (List Char) :=
  monthLits.findSome? fun m =>
    match matchLitCI m l with
    | some r1 =>
        let (w1, r2) := takeRun isSpc r1
        if w1.isEmpty then none
        else
          let (d1, r3) := takeRun isDig r2
          if d1.isEmpty || decide (2 < d1.length) then none
          else
            let comma := match r3 with
              | ',' :: _ => [',']
              | _ => []
            let r3' := r3.drop comma.length
            let (w2, r4) := takeRun isSpc r3'
            if w2.isEmpty then none
            else
              let d2 := r4.take 4
              if d2.length = 4 && d2.all isDig && !isWordChar (r4.getD 4 ' ') then
                some ((m.take 3) ++ w1 ++ d1 ++ comma ++ w2 ++ d2)
              else none
    | none => none

/-- The slash fallback date pattern with boundaries on both sides. -/
def trySlashDateB (l : List Char) : Option (List Char) :=
  let (d1, r1) := takeRun isDig l
  if d1.isEmpty || decide (2 < d1.length) then none
  else
    match r1 with
    | '/' :: r2 =>
        let (d2, r3) := takeRun isDig r2
        if d2.isEmpty || decide (2 < d2.length) then none
        else
          match r3 with
          | '/' :: r4 =>
              let d3 := r4.take 4
              if d3.length = 4 && d3.all isDig && !isWordChar (r4.getD 4 ' ') then
                some (d1 ++ '/' :: d2 ++ '/' :: d3)
              else none
          | _ => none
    | _ => none

/-- Case-preserving month capture needs the original text, so the month
match above returns the canonical three letters; to stay faithful the
matched slice itself is reproduced.  Boundary-aware scan over one line
returning the matched group. -/
def scanBoundaryG (tryAt : List Char → Option (List Char)) :
    Bool → List Char → Option (List Char)
  | _, [] => none
  | prevWord, l@(c :: rest) =>
      match if !prevWord then tryAt l else none with
      | some g => some g
      | none => scanBoundaryG tryAt (isWordChar c) rest

/-- _extract_date of the PyPDF2 parser: first a Date: label line (the
same shape as the pdfplumber date pattern), then the fallback worded or
slash date with word boundaries. -/
def pyExtractDate (lines : List (List Char)) : List Char :=
  match lines.findSome? (fun line => scanFirst tryDate1 line) with
  | some v => v
  | none =>
      match lines.findSome? (fun line =>
          match scanBoundaryG tryMonthDate2 false line with
          | some g => some g
          | none => scanBoundaryG trySlashDateB false line) with
      | some v => v
      | none => []

/-- One line item of the PyPDF2 parser output. -/
structure PyItem where
  description : List Char
  quantity : ℚ
  unit_price : ℚ
  amount : ℚ
deriving DecidableEq, Repr

/-- The description keywords that disqualify a line from being used as a
line-item description. -/
def descKeywords : List (List Char) :=
  ["subtotal".toList, "shipping".toList, "tax".toList, "total".toList,
    "balance".toList, "amount".toList, "discount".toList]

/-- The backwards description scan of _extract_superstore_line_items:
from the line above the amount down to (and excluding) four lines
further up, the first line longer than ten characters holding no
currency value and no financial keyword. -/
def backDescScan (lines : List (List Char)) (lineNum : Nat) : Option (List Char) :=
  let lowBound := lineNum - 5
  let js := ((List.range lineNum).filter (fun j => lowBound < j)).reverse
  js.findSome? fun j =>
    let dl := lines.getD j []
    if decide (10 < dl.length) && extractCV dl = 0
        && !(descKeywords.any (fun k => containsSub (pyLower dl) k)) then some dl
    else none

/-- _extract_superstore_line_items: the first three sub-1000 positive
amounts become items with quantity one, each described by the nearest
preceding free-text line or a numbered placeholder; with no amounts a
single placeholder item is produced. -/
def pyExtractLineItems (lines : List (List Char)) : List PyItem :=
  let amountLines :=
    (lines.enum.filterMap fun p =>
      let a := extractCV p.2
      if 0 < a ∧ a < 1000 then some (p.1, a) else none).take 3
  let items := amountLines.enum.map fun pp =>
    let d := match backDescScan lines pp.2.1 with
      | some dl => dl
      | none => "Product ".toList ++ natDigits (pp.1 + 1)
    { description := d, quantity := 1, unit_price := pp.2.2, amount := pp.2.2 }
  if items.isEmpty then
    [{ description := "Product/Service".toList, quantity := 1, unit_price := 0, amount := 0 }]
  else items

/-- The dictionary _parse_invoice_text returns. -/
structure PyParsed where
  vendor : List Char
  invoice_number : List Char
  invoice_date : List Char
  subtotal : ℚ
  shipping_amount : ℚ
  tax_amount : ℚ
  total_amount : ℚ
  currency : List Char
  line_items : List PyItem
deriving DecidableEq, Repr

/-- _parse_invoice_text (invoice_parser.py lines 69-87). -/
def parseInvoiceText (text : List Char) (filePath : List Char) : PyParsed :=
  let lines := pyLines text
  let fin := extractAllFinancialData lines
  { vendor := "SuperStore".toList
    invoice_number := pyExtractInvoiceNumber lines filePath
    invoice_date := pyExtractDate lines
    subtotal := fin.subtotal
    shipping_amount := fin.shipping
    tax_amount := fin.tax
    total_amount := fin.total
    currency := "USD".toList
    line_items := pyExtractLineItems lines }

/-- _get_fallback_data (invoice_parser.py lines 366-383). -/
def fallbackParsed : PyParsed :=
  { vendor := "SuperStore".toList
    invoice_number := "ERROR-PARSING".toList
    invoice_date := []
    subtotal := 0
    shipping_amount := 0
    tax_amount := 0
    total_amount := 0
    currency := "USD".toList
    line_items := [] }

/-- What reaches the body of InvoiceParser.parse: either the text PyPDF2
extracted, or the fact that some step raised. -/
inductive PyPdfOutcome where
  | extracted (text : List Char)
  | raised
deriving DecidableEq, Repr

/-- InvoiceParser.parse (invoice_parser.py lines 10-46): the whole body
sits in one try block whose bare except returns the fallback object, so
no exception ever propagates. -/
def InvoiceParserParse (o : PyPdfOutcome) (filePath : List Char) : PyParsed :=
  match o with
  | .extracted t => parseInvoiceText t filePath
  | .raised => fallbackParsed

/-! ### Concrete inputs used by witnesses and counterexamples -/


/-! ### Concrete inputs used by witnesses and counterexamples -/

/-- Scenario B figures after label extraction, discount percentage absent. -/
def scenarioBFigures : FinancialFigures :=
  { subtotal := 100
    discount := 0
    discount_percentage := 0
    shipping := 10
    tax := 8
    final_total := 1062/10 }

/-- The same figures with an explicitly extracted discount percentage. -/
def c1CounterFigures : FinancialFigures :=
  { subtotal := 100
    discount := 0
    discount_percentage := 5
    shipping := 10
    tax := 8
    final_total := 1062/10 }

/-- Figures with a positive subtotal and a zero parsed total. -/
def c3Figures : FinancialFigures :=
  { subtotal := 1
    discount := 0
    discount_percentage := 0
    shipping := 0
    tax := 0
    final_total := 0 }

/-- The record built by the pipeline from empty text and no tables. -/
def emptyTextRecord : InvoiceData :=
  { vendor := "Unknown Vendor".toList
    invoice_number := "N/A".toList
    invoice_date := "N/A".toList
    total_amount := 0
    currency := "USD".toList
    line_items := []
    raw_text := []
    subtotal := 0
    discount_amount := 0
    discount_percentage := 0
    shipping_amount := 0
    tax_amount := 0 }

/-- An extractor output with one line item. -/
def c4Raw : RawInvoice :=
  { line_items := [{ description := some "Widget".toList
                     quantity := some (.vnum 2)
                     unit_price := some (.vnum 10)
                     amount := some (.vnum 20) }] }

/-- The swap-law example of the spec. -/
def c5Raw : RawInvoice :=
  { invoice_number := some "March 3 2020".toList
    invoice_date := some "4471".toList }

/-- A date-shaped invoice number next to a date that is neither date nor
number shaped. -/
def c5cRaw : RawInvoice :=
  { invoice_number := some "March 3 2020".toList
    invoice_date := some "hello".toList }

/-- The Scenario C line of the spec. -/
def widgetAText : List Char := "Widget A 2 $10.00 $20.00".toList

/-- The same line with a description long enough for the fallback
pattern. -/
def widgetAlphaText : List Char := "Widget Alpha X 2 $10.00 $20.00".toList

/-- A one-column tabular candidate whose single body row yields one item
through the default quantity. -/
def c7Table : PTable :=
  { header := [some "Description".toList]
    body := [[some "Widget things".toList]] }

/-- The item the candidate above parses to. -/
def c7Item : LineItem :=
  { description := "Widget things".toList, quantity := 1, unit_price := 0, amount := 0 }

/-- A text carrying all three total labels. -/
def c8Text : List Char := "Total: $5.00 Amount Due: $6.00 Balance Due: $7.00".toList

/-- Range invariant carried by the longest-match search state: the
candidate block lies inside the a-range and the b-range. -/
def bestInv (alo ahi blo bhi : Nat) (t : Nat × Nat × Nat) : Prop :=
  alo ≤ t.1 ∧ blo ≤ t.2.1 ∧ t.1 + t.2.2 ≤ ahi ∧ t.2.1 + t.2.2 ≤ bhi

/-- An empty parsed record, every field missing. -/
def c6Parsed : ConfParsed := {}

/-- Another all-missing parsed record, for the vendor-confidence check. -/
def c9Parsed : ConfParsed := {}

/-- A parsed record whose only field is a non-empty vendor string. -/
def c9Vendor : ConfParsed :=
  { vendor := some "SuperStore".toList }

/-! ### Theorems -/

theorem ratFloorZ_eq_floor (q : ℚ) : ratFloorZ q = Int.floor q := by
  rw [Rat.floor_def, ratFloorZ, Int.fdiv_eq_ediv _ (by positivity)]

theorem dropWhile_dropWhile (p : Char → Bool) (l : List Char) :
    (l.dropWhile p).dropWhile p = l.dropWhile p := by
  induction l with
  | nil => rfl
  | cons c t ih =>
      by_cases h : p c
      · simp only [List.dropWhile_cons_of_pos h]
        exact ih
      · simp only [List.dropWhile_cons_of_neg h]

theorem head?_dropWhile_false (p : Char → Bool) (l : List Char) :
    ∀ c, (l.dropWhile p).head? = some c → p c = false := by
  induction l with
  | nil => intro c h; simp at h
  | cons a t ih =>
      intro c h
      by_cases ha : p a
      · rw [List.dropWhile_cons_of_pos ha] at h
        exact ih c h
      · rw [List.dropWhile_cons_of_neg ha] at h
        simp only [List.head?_cons, Option.some.injEq] at h
        subst h
        simpa using ha

theorem dropWhile_of_head_false (p : Char → Bool) (l : List Char)
    (h : ∀ c, l.head? = some c → p c = false) : l.dropWhile p = l := by
  cases l with
  | nil => rfl
  | cons a t => exact List.dropWhile_cons_of_neg (by simpa using h a rfl)

theorem getLast?_dropWhile (p : Char → Bool) (l : List Char)
    (h : l.dropWhile p ≠ []) : (l.dropWhile p).getLast? = l.getLast? := by
  induction l with
  | nil => simp at h
  | cons a t ih =>
      by_cases ha : p a
      · rw [List.dropWhile_cons_of_pos ha] at h ⊢
        have ht : t ≠ [] := by
          intro he
          rw [he] at h
          simp at h
        rw [ih h]
        cases t with
        | nil => exact absurd rfl ht
        | cons b u => rw [List.getLast?_cons_cons]
      · rw [List.dropWhile_cons_of_neg ha]

theorem pyStrip_idem (l : List Char) : pyStrip (pyStrip l) = pyStrip l := by
  unfold pyStrip
  generalize hA : l.dropWhile (fun c => isSpc c) = A
  by_cases hD : A.reverse.dropWhile (fun c => isSpc c) = []
  · rw [hD]
    rfl
  · have hhead : ∀ c,
        ((A.reverse.dropWhile (fun c => isSpc c)).reverse).head? = some c →
          isSpc c = false := by
      intro c hc
      rw [List.head?_reverse, getLast?_dropWhile _ _ hD, List.getLast?_reverse] at hc
      rw [← hA] at hc
      exact head?_dropWhile_false _ _ c hc
    rw [dropWhile_of_head_false _ _ hhead, List.reverse_reverse, ← hA,
      dropWhile_dropWhile]

/-- reconcileFinancials never changes the parsed final total. -/
theorem reconcile_final_total (f : FinancialFigures) :
    (reconcileFinancials f).final_total = f.final_total := by
  unfold reconcileFinancials
  dsimp only
  split_ifs <;> rfl

/-- extractCurrency returns the fixed USD code on every input. -/
theorem extractCurrency_const (r : RawInvoice) : extractCurrency r = "USD".toList := by
  unfold extractCurrency
  dsimp only
  split_ifs <;> rfl

/-- Projection lemmas used to compare a first and a second normalization
pass field by field. -/
theorem normalize_fileName_eq (r1 r2 : RawInvoice) (f now : List Char) :
    (normalize r1 f now).file_name = (normalize r2 f now).file_name := rfl

theorem normalize_currency (r : RawInvoice) (f now : List Char) :
    (normalize r f now).currency = "USD".toList := by
  show pyStrip (extractCurrency r) = _
  rw [extractCurrency_const]
  decide

theorem normalize_toRaw_subtotal (n : NormRecord) (f now : List Char) :
    (normalize n.toRaw f now).subtotal = n.subtotal := rfl

theorem normalize_toRaw_shipping (n : NormRecord) (f now : List Char) :
    (normalize n.toRaw f now).shipping_amount = n.shipping_amount := rfl

theorem normalize_toRaw_tax (n : NormRecord) (f now : List Char) :
    (normalize n.toRaw f now).tax_amount = n.tax_amount := rfl

theorem normalize_toRaw_total (n : NormRecord) (f now : List Char) :
    (normalize n.toRaw f now).total_amount = n.total_amount := rfl

/-! ### SequenceMatcher and confidence lemmas -/

theorem j2get_cases (m : List (Nat × Nat)) (x : Nat) :
    j2get m x = 0 ∨ ∃ p ∈ m, p.1 = x ∧ p.2 = j2get m x := by
  rcases hf : m.find? (fun p => p.1 = x) with _ | p
  · left
    simp [j2get, hf]
  · right
    refine ⟨p, List.mem_of_find?_eq_some hf, ?_, by simp [j2get, hf]⟩
    have := List.find?_some hf
    simpa using this

theorem bestInv_update (alo ahi blo bhi i j k : Nat) (best : Nat × Nat × Nat)
    (hbest : bestInv alo ahi blo bhi best)
    (hkb : k + blo ≤ j + 1) (hka : k + alo ≤ i + 1)
    (hi : i < ahi) (hj : j < bhi) :
    bestInv alo ahi blo bhi (if best.2.2 < k then (i + 1 - k, j + 1 - k, k) else best) := by
  by_cases hlt : best.2.2 < k
  · rw [if_pos hlt]
    unfold bestInv
    dsimp only
    omega
  · rw [if_neg hlt]
    exact hbest

theorem flmInner_inv (i alo blo bhi ahi : Nat) (old : List (Nat × Nat))
    (hold : ∀ p ∈ old, p.2 + blo ≤ p.1 + 1 ∧ p.2 + alo ≤ i)
    (hialo : alo ≤ i) (hi : i < ahi) :
    ∀ (js : List Nat) (newm : List (Nat × Nat)) (best : Nat × Nat × Nat),
      (∀ p ∈ newm, p.2 + blo ≤ p.1 + 1 ∧ p.2 + alo ≤ i + 1) →
      bestInv alo ahi blo bhi best →
      (∀ p ∈ (flmInner i blo bhi old js newm best).1,
          p.2 + blo ≤ p.1 + 1 ∧ p.2 + alo ≤ i + 1) ∧
      bestInv alo ahi blo bhi (flmInner i blo bhi old js newm best).2 := by
  intro js
  induction js with
  | nil =>
      intro newm best hnew hbest
      exact ⟨hnew, hbest⟩
  | cons j js ih =>
      intro newm best hnew hbest
      unfold flmInner
      by_cases hjlo : j < blo
      · rw [if_pos hjlo]
        exact ih newm best hnew hbest
      · rw [if_neg hjlo]
        by_cases hjhi : bhi ≤ j
        · rw [if_pos hjhi]
          exact ⟨hnew, hbest⟩
        · rw [if_neg hjhi]
          push_neg at hjlo hjhi
          have hk : ((if j = 0 then 0 else j2get old (j - 1)) + 1) + blo ≤ j + 1 ∧
              ((if j = 0 then 0 else j2get old (j - 1)) + 1) + alo ≤ i + 1 := by
            by_cases hj0 : j = 0
            · subst hj0
              rw [if_pos rfl]
              omega
            · rw [if_neg hj0]
              rcases j2get_cases old (j - 1) with hz | ⟨p, hp, hkey, hval⟩
              · rw [hz]
                omega
              · have := hold p hp
                omega
          refine ih _ _ ?_ ?_
          · intro p hp
            rcases List.mem_append.mp hp with h | h
            · exact hnew p h
            · simp only [List.mem_singleton] at h
              subst h
              exact hk
          · exact bestInv_update alo ahi blo bhi i j _ best hbest hk.1 hk.2 hi hjhi

theorem flmRows_inv (a b : List Char) (alo blo bhi ahi : Nat) :
    ∀ (cnt i : Nat) (m : List (Nat × Nat)) (best : Nat × Nat × Nat),
      alo ≤ i → i + cnt ≤ ahi →
      (∀ p ∈ m, p.2 + blo ≤ p.1 + 1 ∧ p.2 + alo ≤ i) →
      bestInv alo ahi blo bhi best →
      bestInv alo ahi blo bhi (flmRows a b blo bhi i cnt m best) := by
  intro cnt
  induction cnt with
  | zero =>
      intro i m best _ _ _ hbest
      exact hbest
  | succ n ih =>
      intro i m best hialo hcnt hm hbest
      unfold flmRows
      have hi : i < ahi := by omega
      have h := flmInner_inv i alo blo bhi ahi m hm hialo hi
        (b2j b (a.getD i default)) [] best (by intro p hp; simp at hp) hbest
      exact ih (i + 1) _ _ (by omega) (by omega)
        (by
          intro p hp
          have := h.1 p hp
          omega) h.2

theorem extendLeft_inv (a b : List Char) (alo blo ahi bhi : Nat) :
    ∀ (fuel : Nat) (best : Nat × Nat × Nat),
      bestInv alo ahi blo bhi best →
      bestInv alo ahi blo bhi (extendLeft a b alo blo fuel best) := by
  intro fuel
  induction fuel with
  | zero => intro best hbest; exact hbest
  | succ n ih =>
      intro best hbest
      obtain ⟨bi, bj, k⟩ := best
      unfold extendLeft
      by_cases hg : (alo < bi && blo < bj
          && a.getD (bi - 1) default = b.getD (bj - 1) default) = true
      · rw [if_pos hg]
        simp only [Bool.and_eq_true, decide_eq_true_eq] at hg
        refine ih (bi - 1, bj - 1, k + 1) ?_
        unfold bestInv at hbest ⊢
        dsimp only at hbest ⊢
        omega
      · rw [if_neg hg]
        exact hbest

theorem extendRight_inv (a b : List Char) (alo blo ahi bhi : Nat) :
    ∀ (fuel : Nat) (best : Nat × Nat × Nat),
      bestInv alo ahi blo bhi best →
      bestInv alo ahi blo bhi (extendRight a b ahi bhi fuel best) := by
  intro fuel
  induction fuel with
  | zero => intro best hbest; exact hbest
  | succ n ih =>
      intro best hbest
      obtain ⟨bi, bj, k⟩ := best
      unfold extendRight
      by_cases hg : (bi + k < ahi && bj + k < bhi
          && a.getD (bi + k) default = b.getD (bj + k) default) = true
      · rw [if_pos hg]
        simp only [Bool.and_eq_true, decide_eq_true_eq] at hg
        refine ih (bi, bj, k + 1) ?_
        unfold bestInv at hbest ⊢
        dsimp only at hbest ⊢
        omega
      · rw [if_neg hg]
        exact hbest

theorem flm_inv (a b : List Char) (alo ahi blo bhi : Nat)
    (ha : alo ≤ ahi) (hb : blo ≤ bhi) :
    bestInv alo ahi blo bhi (find_longest_match a b alo ahi blo bhi) := by
  unfold find_longest_match
  apply extendRight_inv
  apply extendLeft_inv
  exact flmRows_inv a b alo blo bhi ahi (ahi - alo) alo [] (alo, blo, 0)
    (le_refl alo) (by omega) (by intro p hp; simp at hp)
    ⟨le_refl alo, le_refl blo, by simpa using ha, by simpa using hb⟩

theorem matchSum_le (a b : List Char) :
    ∀ (fuel alo ahi blo bhi : Nat), alo ≤ ahi → blo ≤ bhi →
      matchSum a b fuel alo ahi blo bhi + alo ≤ ahi ∧
      matchSum a b fuel alo ahi blo bhi + blo ≤ bhi := by
  intro fuel
  induction fuel with
  | zero =>
      intro alo ahi blo bhi ha hb
      simp only [matchSum]
      omega
  | succ n ih =>
      intro alo ahi blo bhi ha hb
      have hinv := flm_inv a b alo ahi blo bhi ha hb
      obtain ⟨h1, h2, h3, h4⟩ := hinv
      unfold matchSum
      by_cases hk : (find_longest_match a b alo ahi blo bhi).2.2 = 0
      · rw [if_pos hk]
        omega
      · rw [if_neg hk]
        have hl := ih alo (find_longest_match a b alo ahi blo bhi).1 blo
          (find_longest_match a b alo ahi blo bhi).2.1 h1 h2
        have hr := ih ((find_longest_match a b alo ahi blo bhi).1
              + (find_longest_match a b alo ahi blo bhi).2.2) ahi
            ((find_longest_match a b alo ahi blo bhi).2.1
              + (find_longest_match a b alo ahi blo bhi).2.2) bhi h3 h4
        omega

theorem totalMatched_le (a b : List Char) :
    totalMatched a b ≤ a.length ∧ totalMatched a b ≤ b.length := by
  have h := matchSum_le a b (a.length + b.length + 1) 0 a.length 0 b.length
    (by omega) (by omega)
  unfold totalMatched
  omega

theorem ratioQ_bounds (a b : List Char) : 0 ≤ ratioQ a b ∧ ratioQ a b ≤ 1 := by
  unfold ratioQ
  by_cases h : a.length + b.length = 0
  · rw [if_pos h]
    norm_num
  · rw [if_neg h]
    have hM := totalMatched_le a b
    have hpos : (0 : ℚ) < (a.length : ℚ) + (b.length : ℚ) := by
      have h2 : 0 < a.length + b.length := Nat.pos_of_ne_zero h
      exact_mod_cast h2
    constructor
    · positivity
    · rw [div_le_one hpos]
      have h1 : (totalMatched a b : ℚ) ≤ (a.length : ℚ) := by exact_mod_cast hM.1
      have h2 : (totalMatched a b : ℚ) ≤ (b.length : ℚ) := by exact_mod_cast hM.2
      linarith

theorem similarity_bounds (a b : List Char) :
    0 ≤ string_similarity_confidence a b ∧ string_similarity_confidence a b ≤ 1 := by
  unfold string_similarity_confidence
  by_cases h : (a.isEmpty || b.isEmpty) = true
  · rw [if_pos h]
    norm_num
  · rw [if_neg h]
    exact ratioQ_bounds _ _

theorem numeric_confidence_bounds (v : Option PyVal) :
    0 ≤ numeric_confidence v ∧ numeric_confidence v ≤ 1 := by
  unfold numeric_confidence
  rcases v with _ | v
  · norm_num
  · rcases v with _ | s | q
    · norm_num
    · dsimp only
      split_ifs <;> norm_num
    · norm_num

theorem date_confidence_bounds (v : Option (List Char)) :
    0 ≤ date_confidence v ∧ date_confidence v ≤ 1 := by
  unfold date_confidence
  rcases v with _ | s
  · norm_num
  · dsimp only
    split_ifs <;> norm_num

theorem foldl_sum_bounds (l : List (List Char × ℚ))
    (h : ∀ q ∈ l, 0 ≤ q.2 ∧ q.2 ≤ 1) :
    ∀ acc : ℚ, acc ≤ l.foldl (fun a q => a + q.2) acc ∧
      l.foldl (fun a q => a + q.2) acc ≤ acc + l.length := by
  induction l with
  | nil =>
      intro acc
      simp
  | cons q t ih =>
      intro acc
      have hq := h q (List.mem_cons_self q t)
      have ht := ih (fun r hr => h r (List.mem_cons_of_mem q hr)) (acc + q.2)
      simp only [List.foldl_cons, List.length_cons]
      constructor
      · linarith [ht.1]
      · push_cast at ht ⊢
        linarith [ht.2]

theorem conf_entries_bounds (p : ConfParsed) (ctx : Option ConfCtx) :
    ∀ q ∈ compute_field_confidences p ctx, 0 ≤ q.2 ∧ q.2 ≤ 1 := by
  intro q hq
  unfold compute_field_confidences at hq
  simp only [List.mem_cons, List.mem_singleton, List.not_mem_nil, or_false] at hq
  rcases hq with h|h|h|h|h|h|h|h|h|h|h <;> subst h <;> dsimp only
  · exact numeric_confidence_bounds _
  · exact numeric_confidence_bounds _
  · exact numeric_confidence_bounds _
  · exact numeric_confidence_bounds _
  · exact numeric_confidence_bounds _
  · exact date_confidence_bounds _
  · exact date_confidence_bounds _
  · exact similarity_bounds _ _
  · rcases p.invoice_number with _ | s
    · norm_num
    · dsimp only
      split_ifs <;> norm_num
  · rcases p.currency with _ | s
    · norm_num
    · dsimp only
      split_ifs <;> norm_num
  · constructor
    · split_ifs <;> norm_num
    · exact min_le_left _ _

theorem b2j_small (b : List Char) (c : Char) (h : b.length < 200) :
    b2j b c = positionsOf b c := by
  unfold b2j
  rw [if_neg]
  simp only [Bool.and_eq_true, decide_eq_true_eq, not_and]
  intro h200
  omega

theorem mem_positionsOf (b : List Char) (c : Char) (j : Nat) :
    j ∈ positionsOf b c ↔ j < b.length ∧ b.get? j = some c := by
  unfold positionsOf
  simp [List.mem_filter, List.mem_range]

theorem positionsOf_lt (b : List Char) (c : Char) :
    ∀ j ∈ positionsOf b c, j < b.length := by
  intro j hj
  exact ((mem_positionsOf b c j).mp hj).1

-- closed form of the inner loop when no skip and no break can fire

theorem flmInner_closed (i bhi : Nat) (old : List (Nat × Nat)) :
    ∀ (js : List Nat) (newm : List (Nat × Nat)) (best : Nat × Nat × Nat),
      (∀ j ∈ js, j < bhi) →
      flmInner i 0 bhi old js newm best
        = (newm ++ js.map (fun j => (j, (if j = 0 then 0 else j2get old (j - 1)) + 1)),
           js.foldl (fun b j =>
             if b.2.2 < (if j = 0 then 0 else j2get old (j - 1)) + 1 then
               (i + 1 - ((if j = 0 then 0 else j2get old (j - 1)) + 1),
                 j + 1 - ((if j = 0 then 0 else j2get old (j - 1)) + 1),
                 (if j = 0 then 0 else j2get old (j - 1)) + 1)
             else b) best) := by
  intro js
  induction js with
  | nil =>
      intro newm best _
      simp [flmInner]
  | cons j t ih =>
      intro newm best hjs
      unfold flmInner
      rw [if_neg (by omega), if_neg (by
        have := hjs j (List.mem_cons_self j t)
        omega)]
      rw [ih _ _ (fun x hx => hjs x (List.mem_cons_of_mem j hx))]
      simp [List.append_assoc]

theorem j2get_map (g : Nat → Nat) :
    ∀ (js : List Nat) (x : Nat), x ∈ js →
      j2get (js.map (fun j => (j, g j))) x = g x := by
  intro js
  induction js with
  | nil => intro x hx; simp at hx
  | cons j t ih =>
      intro x hx
      unfold j2get
      by_cases hjx : j = x
      · subst hjx
        simp [List.find?]
      · rcases List.mem_cons.mp hx with h | h
        · exact absurd h.symm hjx
        · have := ih x h
          unfold j2get at this
          simpa [List.find?, hjx] using this

-- the best fold only grows the best size

theorem bestFold_mono (i : Nat) (g : Nat → Nat) :
    ∀ (js : List Nat) (best : Nat × Nat × Nat),
      best.2.2 ≤ (js.foldl (fun b j =>
        if b.2.2 < g j then (i + 1 - g j, j + 1 - g j, g j) else b) best).2.2 := by
  intro js
  induction js with
  | nil => intro best; simp
  | cons j t ih =>
      intro best
      simp only [List.foldl_cons]
      by_cases hlt : best.2.2 < g j
      · rw [if_pos hlt]
        have := ih (i + 1 - g j, j + 1 - g j, g j)
        dsimp only at this ⊢
        omega
      · rw [if_neg hlt]
        exact ih best

-- after processing a member, the best size is at least its chain value

theorem bestFold_ge (i : Nat) (g : Nat → Nat) :
    ∀ (js : List Nat) (best : Nat × Nat × Nat) (j : Nat), j ∈ js →
      g j ≤ (js.foldl (fun b j =>
        if b.2.2 < g j then (i + 1 - g j, j + 1 - g j, g j) else b) best).2.2 := by
  intro js
  induction js with
  | nil => intro best j hj; simp at hj
  | cons x t ih =>
      intro best j hj
      simp only [List.foldl_cons]
      rcases List.mem_cons.mp hj with h | h
      · subst h
        by_cases hlt : best.2.2 < g j
        · rw [if_pos hlt]
          have := bestFold_mono i g t (i + 1 - g j, j + 1 - g j, g j)
          dsimp only at this
          omega
        · rw [if_neg hlt]
          have := bestFold_mono i g t best
          omega
      · by_cases hlt : best.2.2 < g x
        · rw [if_pos hlt]
          exact ih _ j h
        · rw [if_neg hlt]
          exact ih _ j h

theorem get?_getD_self (l : List Char) (i : Nat) (h : i < l.length) :
    l.get? i = some (l.getD i default) := by
  rcases hx : l.get? i with _ | v
  · rw [List.get?_eq_none] at hx
    omega
  · rw [List.getD_eq_getElem?_getD, ← List.get?_eq_getElem?, hx]
    rfl

theorem self_mem_positionsOf (a : List Char) (i : Nat) (h : i < a.length) :
    i ∈ positionsOf a (a.getD i default) :=
  (mem_positionsOf a (a.getD i default) i).mpr ⟨h, get?_getD_self a i h⟩

theorem flmRows_self_ge (a : List Char) (hsmall : a.length < 200) :
    ∀ (cnt i : Nat) (m : List (Nat × Nat)) (best : Nat × Nat × Nat),
      i + cnt = a.length → 1 ≤ cnt →
      (i = 0 ∨ j2get m (i - 1) = i) →
      a.length ≤ (flmRows a a 0 a.length i cnt m best).2.2 := by
  intro cnt
  induction cnt with
  | zero =>
      intro i m best _ h1
      omega
  | succ n ih =>
      intro i m best hcnt _ hdiag
      have hi : i < a.length := by omega
      unfold flmRows
      rw [b2j_small a _ hsmall]
      rw [flmInner_closed i a.length m (positionsOf a (a.getD i default)) [] best
        (positionsOf_lt a _)]
      have hkey : (if i = 0 then 0 else j2get m (i - 1)) + 1 = i + 1 := by
        rcases hdiag with h0 | hval
        · subst h0
          rw [if_pos rfl]
        · rcases Nat.eq_zero_or_pos i with h0 | hpos
          · subst h0
            rw [if_pos rfl]
          · rw [if_neg (by omega), hval]
      rcases Nat.eq_zero_or_pos n with hn0 | hnpos
      · subst hn0
        have hin : i = a.length - 1 := by omega
        dsimp only
        unfold flmRows
        have hge := bestFold_ge i
          (fun j => (if j = 0 then 0 else j2get m (j - 1)) + 1)
          (positionsOf a (a.getD i default)) best i
          (self_mem_positionsOf a i hi)
        dsimp only at hge
        rw [hkey] at hge
        omega
      · dsimp only
        refine ih (i + 1) _ _ (by omega) (by omega) (Or.inr ?_)
        simp only [Nat.add_sub_cancel, List.nil_append]
        have hmap := j2get_map
          (fun j => (if j = 0 then 0 else j2get m (j - 1)) + 1)
          (positionsOf a (a.getD i default)) i (self_mem_positionsOf a i hi)
        dsimp only at hmap
        rw [hmap]
        exact hkey

theorem extendLeft_stuck (a b : List Char) (alo blo fuel bi bj k : Nat)
    (hg : ¬((alo < bi && blo < bj
        && a.getD (bi - 1) default = b.getD (bj - 1) default) = true)) :
    extendLeft a b alo blo fuel (bi, bj, k) = (bi, bj, k) := by
  cases fuel with
  | zero => rfl
  | succ n =>
      unfold extendLeft
      rw [if_neg hg]

theorem extendRight_stuck (a b : List Char) (ahi bhi fuel bi bj k : Nat)
    (hg : ¬((bi + k < ahi && bj + k < bhi
        && a.getD (bi + k) default = b.getD (bj + k) default) = true)) :
    extendRight a b ahi bhi fuel (bi, bj, k) = (bi, bj, k) := by
  cases fuel with
  | zero => rfl
  | succ n =>
      unfold extendRight
      rw [if_neg hg]

theorem flm_self (a : List Char) (hne : a ≠ []) (hsmall : a.length < 200) :
    find_longest_match a a 0 a.length 0 a.length = (0, 0, a.length) := by
  have hlen : 1 ≤ a.length := by
    rcases a with _ | ⟨c, t⟩
    · exact absurd rfl hne
    · simp
  have hge := flmRows_self_ge a hsmall a.length 0 [] (0, 0, 0) (by omega) hlen
    (Or.inl rfl)
  have hinv := flmRows_inv a a 0 0 a.length a.length a.length 0 [] (0, 0, 0)
    (le_refl 0) (by omega) (by intro p hp; simp at hp)
    ⟨le_refl 0, le_refl 0, by simpa using Nat.zero_le a.length, by
      simpa using Nat.zero_le a.length⟩
  unfold find_longest_match
  rw [Nat.sub_zero]
  set best1 := flmRows a a 0 a.length 0 a.length [] (0, 0, 0) with hbest1
  obtain ⟨h1, h2, h3, h4⟩ := hinv
  have hb : best1 = (0, 0, a.length) := by
    obtain ⟨bi, bj, k⟩ := best1
    simp only at h1 h2 h3 h4 hge
    have : bi = 0 ∧ bj = 0 ∧ k = a.length := by omega
    simp [this.1, this.2.1, this.2.2]
  rw [hb]
  dsimp only
  rw [extendLeft_stuck a a 0 0 0 0 0 a.length (by simp)]
  rw [extendRight_stuck a a a.length a.length a.length 0 0 a.length (by simp)]

theorem matchSum_empty (a b : List Char) :
    ∀ (fuel x y : Nat), matchSum a b fuel x x y y = 0 := by
  intro fuel x y
  cases fuel with
  | zero => rfl
  | succ n =>
      unfold matchSum
      have hflm : find_longest_match a b x x y y = (x, y, 0) := by
        unfold find_longest_match
        rw [Nat.sub_self]
        show extendRight a b x y x (extendLeft a b x y x (x, y, 0)) = (x, y, 0)
        rw [extendLeft_stuck a b x y x x y 0 (by simp)]
        rw [extendRight_stuck a b x y x x y 0 (by simp)]
      rw [hflm]
      dsimp only
      rfl

theorem totalMatched_self (a : List Char) (hsmall : a.length < 200) :
    totalMatched a a = a.length := by
  by_cases hne : a = []
  · subst hne
    simp [totalMatched, matchSum_empty]
  · show matchSum a a (a.length + a.length + 1) 0 a.length 0 a.length = a.length
    unfold matchSum
    rw [flm_self a hne hsmall]
    dsimp only
    have h0 : a.length ≠ 0 := by
      intro h
      exact hne (List.eq_nil_of_length_eq_zero h)
    rw [if_neg h0]
    rw [matchSum_empty]
    simp only [Nat.zero_add]
    rw [matchSum_empty]
    omega

theorem ratioQ_self (a : List Char) (hsmall : a.length < 200) :
    ratioQ a a = 1 := by
  unfold ratioQ
  by_cases h0 : a.length + a.length = 0
  · rw [if_pos h0]
  · rw [if_neg h0, totalMatched_self a hsmall]
    have hn : (a.length : ℚ) ≠ 0 := by
      have : a.length ≠ 0 := by omega
      exact_mod_cast this
    field_simp
    ring

theorem similarity_self (s : List Char) (hne : s ≠ []) (hsmall : s.length < 200) :
    string_similarity_confidence s s = 1 := by
  unfold string_similarity_confidence
  have hni : s.isEmpty = false := by
    simp [List.isEmpty_iff, hne]
  rw [hni]
  show ratioQ (pyLower s) (pyLower s) = 1
  exact ratioQ_self (pyLower s) (by simpa [pyLower] using hsmall)

/-! ### Claim C1 -/

/-- C1 as stated is refuted: an extracted figures map with final_total
positive, discount_amount zero, and a gap above the tolerance, but with
an explicitly extracted discount percentage, reconciles by rule 1 to the
percentage-derived discount (5.00), not to the gap-derived
round(subtotal+shipping+tax-final_total, 2) = 11.80. -/
theorem C1_counterexample :
    (0 : ℚ) < c1CounterFigures.final_total ∧ c1CounterFigures.discount = 0 ∧
      1/100 < c1CounterFigures.subtotal + c1CounterFigures.shipping
          + c1CounterFigures.tax - c1CounterFigures.final_total ∧
      (reconcileFinancials c1CounterFigures).discount
          ≠ quantize2 (c1CounterFigures.subtotal + c1CounterFigures.shipping
              + c1CounterFigures.tax - c1CounterFigures.final_total) := by
  refine ⟨by norm_num [c1CounterFigures], rfl, by norm_num [c1CounterFigures], ?_⟩
  norm_num [c1CounterFigures, reconcileFinancials, quantize2, roundHalfEven,
    ratFloorZ_eq_floor]

/-- C1 (amended): for every figures map with final_total positive,
discount_amount zero AND discount_percentage zero, if the gap
subtotal+shipping+tax minus final_total exceeds 0.01 then reconciliation
sets discount_amount to the gap rounded to two decimals and, when
subtotal is positive, discount_percentage to
round(discount_amount/subtotal*100, 2); a gap at or below 0.01 leaves
discount_amount at zero. -/
theorem C1_amended (f : FinancialFigures)
    (hft : 0 < f.final_total) (hd : f.discount = 0) (hp : f.discount_percentage = 0) :
    (1/100 < f.subtotal + f.shipping + f.tax - f.final_total →
      (reconcileFinancials f).discount
          = quantize2 (f.subtotal + f.shipping + f.tax - f.final_total) ∧
      (0 < f.subtotal → (reconcileFinancials f).discount_percentage
          = quantize2 (quantize2 (f.subtotal + f.shipping + f.tax - f.final_total)
              / f.subtotal * 100))) ∧
    (f.subtotal + f.shipping + f.tax - f.final_total ≤ 1/100 →
      (reconcileFinancials f).discount = 0) := by
  unfold reconcileFinancials
  simp only [hd, hp, lt_irrefl, false_and, and_false, if_false, if_neg]
  constructor
  · intro hdelta
    rw [if_pos ⟨hft, trivial, by linarith⟩, if_pos (by linarith)]
    by_cases hs : 0 < f.subtotal
    · rw [if_pos hs]
      exact ⟨rfl, fun _ => rfl⟩
    · rw [if_neg hs]
      exact ⟨rfl, fun h => absurd h hs⟩
  · intro hdelta
    by_cases hcal : f.final_total < f.subtotal + f.shipping + f.tax
    · rw [if_pos ⟨hft, trivial, hcal⟩, if_neg (by linarith)]
      exact hd
    · rw [if_neg (by tauto)]
      exact hd

/-- Witness for C1: the Scenario B instance, subtotal 100, shipping 10,
tax 8, Balance Due 106.20, yields discount 11.80 and percentage 11.80. -/
theorem C1_witness :
    (0 : ℚ) < scenarioBFigures.final_total ∧
    (reconcileFinancials scenarioBFigures).discount = 59/5 ∧
    (reconcileFinancials scenarioBFigures).discount_percentage = 59/5 := by
  have h := C1_amended scenarioBFigures (by norm_num [scenarioBFigures]) rfl rfl
  have h2 := (h.1 (by norm_num [scenarioBFigures])).1
  have h3 := (h.1 (by norm_num [scenarioBFigures])).2 (by norm_num [scenarioBFigures])
  refine ⟨by norm_num [scenarioBFigures], ?_, ?_⟩
  · rw [h2]
    norm_num [scenarioBFigures, quantize2, roundHalfEven, ratFloorZ_eq_floor]
  · rw [h3]
    norm_num [scenarioBFigures, quantize2, roundHalfEven, ratFloorZ_eq_floor]

/-! ### Claim C2 -/

/-- C2 as stated is refuted: parsing an empty extracted text raises
nothing; the pipeline returns a best-effort default record instead of
the claimed typed error. -/
theorem C2_counterexample :
    exceptIsError (PdfPlumberParse (.extracted [] [])) = false := rfl

/-- C2 (amended): with no tabular candidates the parser never raises for
any text; empty text yields the default record (vendor Unknown Vendor,
invoice number and date N/A, zero amounts, USD, no items); the single
typed error ParsingFailedError is produced when the pdfplumber
extraction layer fails (and it also wraps the one internal raise, a
malformed Decimal table cell). -/
theorem C2_amended (t : List Char) :
    exceptIsError (PdfPlumberParse (.extracted t [])) = false ∧
    PdfPlumberParse (.extracted [] []) = .ok emptyTextRecord ∧
    PdfPlumberParse .extractionFailure = .error .parsingFailed :=
  ⟨rfl, rfl, rfl⟩

/-! ### Claim C3 -/

/-- C3 as stated is refuted: with subtotal 1 and final_total 0 the
reconciliation gap exceeds 0.10 but no reconciliation-mismatch warning
is emitted, because the source also requires a positive final_total. -/
theorem C3_counterexample :
    (1/10 : ℚ) < |c3Figures.subtotal - c3Figures.discount + c3Figures.shipping
        + c3Figures.tax - c3Figures.final_total| ∧
    Warning.reconcileMismatch ∉ validate_business_logic c3Figures [] := by
  constructor
  · norm_num [c3Figures]
  · norm_num [validate_business_logic, c3Figures]
    exact ⟨by decide, by decide⟩

/-- C3 (amended): validate_business_logic is a total function (it never
raises), and it emits the reconciliation-mismatch warning exactly when
final_total is positive and the reconciliation gap exceeds 0.10. -/
theorem C3_amended (f : FinancialFigures) (items : List LineItem) :
    Warning.reconcileMismatch ∈ validate_business_logic f items
      ↔ 0 < f.final_total
          ∧ (1/10 : ℚ) < |f.subtotal - f.discount + f.shipping + f.tax - f.final_total| := by
  unfold validate_business_logic
  dsimp only
  split_ifs with h1 h2 h3 h4 <;> simp_all

/-! ### Claim C4 -/

/-- C4 as stated is refuted: normalizing the normalized record again
loses the line_item fields, because the canonical record carries no
line_items key, so the second pass resets them to their defaults. -/
theorem C4_counterexample :
    ¬ (normalize (NormRecord.toRaw (normalize c4Raw "a.pdf".toList "t".toList))
          "a.pdf".toList "t".toList
        = normalize c4Raw "a.pdf".toList "t".toList) := by
  have hne : (normalize (NormRecord.toRaw (normalize c4Raw "a.pdf".toList "t".toList))
      "a.pdf".toList "t".toList).line_item_description
      ≠ (normalize c4Raw "a.pdf".toList "t".toList).line_item_description := by
    decide
  intro h
  exact hne (congrArg NormRecord.line_item_description h)

/-- C4 (amended): normalize is not idempotent on the full record; it is
idempotent on file_name, currency and the four amount fields, for every
extractor output, filename and timestamp. -/
theorem C4_amended (raw : RawInvoice) (f now : List Char) :
    (normalize (NormRecord.toRaw (normalize raw f now)) f now).file_name
        = (normalize raw f now).file_name ∧
    (normalize (NormRecord.toRaw (normalize raw f now)) f now).currency
        = (normalize raw f now).currency ∧
    (normalize (NormRecord.toRaw (normalize raw f now)) f now).subtotal
        = (normalize raw f now).subtotal ∧
    (normalize (NormRecord.toRaw (normalize raw f now)) f now).shipping_amount
        = (normalize raw f now).shipping_amount ∧
    (normalize (NormRecord.toRaw (normalize raw f now)) f now).tax_amount
        = (normalize raw f now).tax_amount ∧
    (normalize (NormRecord.toRaw (normalize raw f now)) f now).total_amount
        = (normalize raw f now).total_amount := by
  exact ⟨normalize_fileName_eq _ _ _ _,
    (normalize_currency _ _ _).trans (normalize_currency _ _ _).symm,
    normalize_toRaw_subtotal _ _ _, normalize_toRaw_shipping _ _ _,
    normalize_toRaw_tax _ _ _, normalize_toRaw_total _ _ _⟩

/-! ### Claim C5 -/

/-- C5 as stated is refuted on its general law: with a date-shaped
invoice number and an invoice date that is neither date- nor
number-shaped, the number field takes the date value but the date field
keeps its own value, so the two values are duplicated, not swapped. -/
theorem C5_counterexample :
    looksLikeDate (pyStrip (c5cRaw.invoice_number.getD [])) = true ∧
    looksLikeDate (pyStrip (c5cRaw.invoice_date.getD [])) = false ∧
    (normalize c5cRaw "inv.pdf".toList "ts".toList).invoice_number = "hello".toList ∧
    (normalize c5cRaw "inv.pdf".toList "ts".toList).invoice_date = "hello".toList ∧
    (normalize c5cRaw "inv.pdf".toList "ts".toList).invoice_date
        ≠ "March 3 2020".toList := by
  refine ⟨by decide, by decide, by decide, by decide, by decide⟩

/-- C5 (amended): the exchange is field-wise; both fields exchange their
values exactly when the invoice number is date-shaped, the invoice date
is not, the invoice date is number-shaped, and the invoice number is
not, as in the March 3 2020 / 4471 example. -/
theorem C5_amended (raw : RawInvoice) (f now : List Char)
    (hn : looksLikeDate (pyStrip (raw.invoice_number.getD [])) = true)
    (hd : looksLikeDate (pyStrip (raw.invoice_date.getD [])) = false)
    (hd2 : looksLikeNumber (pyStrip (raw.invoice_date.getD [])) = true)
    (hn2 : looksLikeNumber (pyStrip (raw.invoice_number.getD [])) = false) :
    (normalize raw f now).invoice_number = pyStrip (raw.invoice_date.getD []) ∧
    (normalize raw f now).invoice_date = pyStrip (raw.invoice_number.getD []) := by
  constructor
  · show pyStrip (extractInvoiceNumber raw) = _
    unfold extractInvoiceNumber
    simp only [hn, hd, Bool.not_false, Bool.and_self, if_pos]
    exact pyStrip_idem _
  · show pyStrip (extractInvoiceDate raw) = _
    unfold extractInvoiceDate
    simp only [hd2, hn2, Bool.not_false, Bool.and_self, if_pos]
    exact pyStrip_idem _

/-- Witness for C5: the concrete example of the spec swaps both values. -/
theorem C5_witness :
    looksLikeDate (pyStrip (c5Raw.invoice_number.getD [])) = true ∧
    looksLikeDate (pyStrip (c5Raw.invoice_date.getD [])) = false ∧
    looksLikeNumber (pyStrip (c5Raw.invoice_date.getD [])) = true ∧
    looksLikeNumber (pyStrip (c5Raw.invoice_number.getD [])) = false ∧
    (normalize c5Raw "inv.pdf".toList "ts".toList).invoice_number = "4471".toList ∧
    (normalize c5Raw "inv.pdf".toList "ts".toList).invoice_date = "March 3 2020".toList := by
  have h := C5_amended c5Raw "inv.pdf".toList "ts".toList (by decide) (by decide)
    (by decide) (by decide)
  refine ⟨by decide, by decide, by decide, by decide, ?_, ?_⟩
  · rw [h.1]
    decide
  · rw [h.2]
    decide

/-! ### Claim C7 -/

/-- C7 as stated is refuted: with no tabular candidates, the Scenario C
line Widget A 2 dollar 10.00 dollar 20.00 yields no line item at all,
because the fallback pattern demands a description of at least eleven
characters before the numeric tail and Widget A has eight. -/
theorem C7_counterexample :
    extract_structured_line_items [] widgetAText = .ok [] ∧
    extract_line_items_from_text_patterns widgetAText = [] :=
  ⟨rfl, rfl⟩

/-- C7 (amended): the fallback text path runs only when the primary
tabular path yields zero items; with no tabular candidates and a
description of at least eleven characters, as in Widget Alpha X 2
dollar 10.00 dollar 20.00, the fallback yields exactly one line item
with quantity 2, unit price 10.00 and amount 20.00. -/
theorem C7_amended :
    (∀ tables text p, primaryLineItems tables = .ok p → p ≠ [] →
        extract_structured_line_items tables text = .ok p) ∧
    extract_line_items_from_text_patterns widgetAlphaText
        = [{ description := "Widget Alpha X".toList, quantity := 2,
             unit_price := centsQ 1000, amount := centsQ 2000 }] ∧
    extract_structured_line_items [] widgetAlphaText
        = .ok [{ description := "Widget Alpha X".toList, quantity := 2,
                 unit_price := centsQ 1000, amount := centsQ 2000 }] := by
  refine ⟨?_, ?_, ?_⟩
  · intro tables text p hp hne
    unfold extract_structured_line_items
    rw [hp]
    show Except.bind (Except.ok p) _ = Except.ok p
    unfold Except.bind
    simp only [List.isEmpty_iff, hne, if_neg]
    rfl
  · rfl
  · rfl

/-- Witness for C7: a tabular candidate that parses to one item keeps the
fallback path unused. -/
theorem C7_witness :
    primaryLineItems [c7Table] = .ok [c7Item] ∧ [c7Item] ≠ [] ∧
    extract_structured_line_items [c7Table] widgetAlphaText = .ok [c7Item] := by
  have h1 : primaryLineItems [c7Table] = .ok [c7Item] := rfl
  exact ⟨h1, by simp, C7_amended.1 [c7Table] widgetAlphaText [c7Item] h1 (by simp)⟩

/-! ### Claim C8 -/

/-- C8: final_total is taken from the first matching label in the fixed
priority order Balance Due, then Total, then Amount Due; a matching
Balance Due wins regardless of the other labels, Total is used only
without a Balance Due match, Amount Due only without either, and with no
match final_total stays zero (reconciliation never changes it). -/
theorem C8_theorem (t : List Char) :
    (∀ v, searchLabelMoney "Balance Due:".toList t = some v →
        (extract_financials_with_validation t).final_total = centsQ v) ∧
    (searchLabelMoney "Balance Due:".toList t = none →
      ∀ v, searchLabelMoney "Total:".toList t = some v →
        (extract_financials_with_validation t).final_total = centsQ v) ∧
    (searchLabelMoney "Balance Due:".toList t = none →
      searchLabelMoney "Total:".toList t = none →
      ∀ v, searchLabelMoney "Amount Due:".toList t = some v →
        (extract_financials_with_validation t).final_total = centsQ v) ∧
    (searchLabelMoney "Balance Due:".toList t = none →
      searchLabelMoney "Total:".toList t = none →
      searchLabelMoney "Amount Due:".toList t = none →
        (extract_financials_with_validation t).final_total = 0) := by
  unfold extract_financials_with_validation
  rw [reconcile_final_total]
  unfold extractFinancialsRaw
  refine ⟨?_, ?_, ?_, ?_⟩
  · intro v hv
    rw [hv]
  · intro h0 v hv
    rw [h0, hv]
  · intro h0 h1 v hv
    rw [h0, h1, hv]
  · intro h0 h1 h2
    rw [h0, h1, h2]

/-- Witness for C8: on a text carrying all three labels the Balance Due
amount wins. -/
theorem C8_witness :
    searchLabelMoney "Balance Due:".toList c8Text = some 700 ∧
    searchLabelMoney "Total:".toList c8Text = some 500 ∧
    searchLabelMoney "Amount Due:".toList c8Text = some 600 ∧
    (extract_financials_with_validation c8Text).final_total = centsQ 700 := by
  refine ⟨by decide, by decide, by decide, ?_⟩
  exact (C8_theorem c8Text).1 700 (by decide)

/-! ### Claim C10 -/

/-- C10: the PyPDF2 parser never propagates an exception; whenever any
step of parsing raises internally the bare except returns the fallback
object, whose dictionary has vendor SuperStore, invoice number
ERROR-PARSING, empty date, zero subtotal, shipping, tax and total, USD
currency and no line items. -/
theorem C10_theorem (path : List Char) :
    InvoiceParserParse .raised path = fallbackParsed ∧
    fallbackParsed.vendor = "SuperStore".toList ∧
    fallbackParsed.invoice_number = "ERROR-PARSING".toList ∧
    fallbackParsed.invoice_date = [] ∧
    fallbackParsed.subtotal = 0 ∧
    fallbackParsed.shipping_amount = 0 ∧
    fallbackParsed.tax_amount = 0 ∧
    fallbackParsed.total_amount = 0 ∧
    fallbackParsed.currency = "USD".toList ∧
    fallbackParsed.line_items = [] :=
  ⟨rfl, rfl, rfl, rfl, rfl, rfl, rfl, rfl, rfl, rfl⟩

/-! ### Claim C6 -/

/-- C6: every per-field confidence lies in the unit interval, and the
overall confidence is the unweighted mean of the eleven per-field
values, hence also in the unit interval. -/
theorem C6_theorem (p : ConfParsed) (ctx : Option ConfCtx) :
    (∀ q ∈ compute_field_confidences p ctx, 0 ≤ q.2 ∧ q.2 ≤ 1) ∧
    overall_confidence (compute_field_confidences p ctx)
        = ((compute_field_confidences p ctx).foldl (fun a q => a + q.2) 0) / 11 ∧
    0 ≤ overall_confidence (compute_field_confidences p ctx) ∧
    overall_confidence (compute_field_confidences p ctx) ≤ 1 := by
  have hb := conf_entries_bounds p ctx
  have hlen : (compute_field_confidences p ctx).length = 11 := rfl
  have hemp : (compute_field_confidences p ctx).isEmpty = false := rfl
  have hsum := foldl_sum_bounds (compute_field_confidences p ctx) hb 0
  rw [hlen] at hsum
  have hover : overall_confidence (compute_field_confidences p ctx)
      = ((compute_field_confidences p ctx).foldl (fun a q => a + q.2) 0) / 11 := by
    unfold overall_confidence
    rw [hemp, hlen]
    norm_num
  refine ⟨hb, hover, ?_, ?_⟩
  · rw [hover]
    have := hsum.1
    positivity
  · rw [hover]
    rw [div_le_one (by norm_num)]
    have := hsum.2
    push_cast at this
    linarith

/-- C6 witness: the bounds evaluated on the empty record. -/
theorem C6_witness :
    0 ≤ (("subtotal".toList, numeric_confidence c6Parsed.subtotal) : List Char × ℚ).2 ∧
    (("subtotal".toList, numeric_confidence c6Parsed.subtotal) : List Char × ℚ).2 ≤ 1 ∧
    0 ≤ overall_confidence (compute_field_confidences c6Parsed none) ∧
    overall_confidence (compute_field_confidences c6Parsed none) ≤ 1 := by
  have h := C6_theorem c6Parsed none
  have hb := h.1 ("subtotal".toList, numeric_confidence c6Parsed.subtotal)
    (by simp [compute_field_confidences])
  exact ⟨hb.1, hb.2, h.2.2.1, h.2.2.2⟩

/-! ### Claim C9 -/

/-- C9: with no context and no extracted vendor, the vendor confidence is
0.0, not 1.0: parsed.get('vendor') is None, so both sides of the
similarity are the empty string and string_similarity_confidence
short-circuits to 0.0. -/
theorem C9_counterexample :
    ("vendor".toList, (0 : ℚ)) ∈ compute_field_confidences c9Parsed none ∧
      (0 : ℚ) ≠ 1 := by
  constructor
  · unfold compute_field_confidences
    exact List.mem_cons_of_mem _ (List.mem_cons_of_mem _ (List.mem_cons_of_mem _
      (List.mem_cons_of_mem _ (List.mem_cons_of_mem _ (List.mem_cons_of_mem _
      (List.mem_cons_of_mem _ (List.mem_cons_self _ _)))))))
  · norm_num

/-- C9 (amended): when no context is supplied and a non-empty vendor
string of fewer than 200 characters was extracted, the vendor string is
compared to itself and the vendor confidence equals 1.0. -/
theorem C9_amended (p : ConfParsed) (s : List Char) (hv : p.vendor = some s)
    (hne : s ≠ []) (hsmall : s.length < 200) :
    string_similarity_confidence (p.vendor.getD []) (simArgB none p.vendor) = 1 ∧
      ("vendor".toList, (1 : ℚ)) ∈ compute_field_confidences p none := by
  have hkey : string_similarity_confidence (p.vendor.getD [])
      (simArgB none p.vendor) = 1 := by
    rw [hv]
    exact similarity_self s hne hsmall
  refine ⟨hkey, ?_⟩
  have hmem : ("vendor".toList,
      string_similarity_confidence (p.vendor.getD []) (simArgB none p.vendor)) ∈
      compute_field_confidences p none := by
    unfold compute_field_confidences
    exact List.mem_cons_of_mem _ (List.mem_cons_of_mem _ (List.mem_cons_of_mem _
      (List.mem_cons_of_mem _ (List.mem_cons_of_mem _ (List.mem_cons_of_mem _
      (List.mem_cons_of_mem _ (List.mem_cons_self _ _)))))))
  rw [hkey] at hmem
  exact hmem

/-- C9 witness: the amended statement instantiated at the vendor
'SuperStore'. -/
theorem C9_witness :
    "SuperStore".toList ≠ [] ∧ ("SuperStore".toList).length < 200 ∧
      (string_similarity_confidence (c9Vendor.vendor.getD [])
          (simArgB none c9Vendor.vendor) = 1 ∧
        ("vendor".toList, (1 : ℚ)) ∈ compute_field_confidences c9Vendor none) :=
  ⟨by decide, by decide,
    C9_amended c9Vendor "SuperStore".toList rfl (by decide) (by decide)⟩

end InvoiceProof
